import Mathlib

/-!
Verification development for the opencode-feishu bot's two core components:

* the Feishu card formatter (`src/formatter/card.ts`): `buildStreamingCardsV2`
  and its helpers (`escapeCodeBlockContent`, `formatToolInput`,
  `getStatusEmoji`, `truncateContent`, `groupConsecutiveParts`,
  `estimateElementSize`), and
* the per-conversation scheduler (`src/queue/lane-queue.ts`): class
  `LaneQueue` with `enqueue`, `abort`, `clear`, `getQueueLength`,
  `isProcessing`, `insertByPriority`, `processLane`, `cleanupEmptyLane`,
  `tryProcessPendingLanes`.

JavaScript strings are modelled as Lean `String` (sequences of Unicode scalar
values); `String.prototype.length` and `slice` count UTF-16 code units, which
we model with `jsLen` / `jsTake` (exact except when a slice boundary would
split a surrogate pair, which none of the texts under study do).
`JSON.stringify` is modelled for exactly the object shapes the formatter
serializes.  The scheduler's asynchronous execution is modelled as a state
machine whose steps are the synchronous blocks of the JavaScript code (the
code between `await` points), which is faithful to the single-threaded
cooperative semantics of the runtime.
-/

/-- UTF-16 width of a Unicode scalar value (1 for BMP, 2 for astral). -/
def utf16Width (c : Char) : Nat :=
  if c.toNat < 65536 then 1 else 2

/-- JavaScript `String.prototype.length`: number of UTF-16 code units. -/
def jsLen (s : String) : Nat :=
  s.data.foldl (fun n c => n + utf16Width c) 0

def jsTakeAux : Nat → List Char → List Char
  | _, [] => []
  | n, c :: cs =>
    let w := utf16Width c
    if w ≤ n then c :: jsTakeAux (n - w) cs else []

/-- JavaScript `s.slice(0, n)` (n counted in UTF-16 code units). -/
def jsTake (s : String) (n : Nat) : String :=
  String.mk (jsTakeAux n s.data)

def hexDigitChar (n : Nat) : Char :=
  if n < 10 then Char.ofNat (48 + n) else Char.ofNat (87 + n)

/-- Per-character escaping of `JSON.stringify` for string values. -/
def jsonEscapeChar (c : Char) : List Char :=
  if c = '"' then ['\\', '"']
  else if c = '\\' then ['\\', '\\']
  else if c = '\x08' then ['\\', 'b']
  else if c = '\t' then ['\\', 't']
  else if c = '\n' then ['\\', 'n']
  else if c = '\x0c' then ['\\', 'f']
  else if c = '\r' then ['\\', 'r']
  else if c.toNat < 32 then
    ['\\', 'u', '0', '0', hexDigitChar (c.toNat / 16), hexDigitChar (c.toNat % 16)]
  else [c]

/-- `JSON.stringify` of a string value (quoted, escaped). -/
def jsonQuote (s : String) : String :=
  String.mk ('"' :: (s.data.flatMap jsonEscapeChar ++ ['"']))

/-- Rendered card elements produced by `buildStreamingCardsV2`:
markdown blocks, dividers, and collapsible panels. -/
inductive CardElem where
  | markdown (content : String)
  | hr
  | panel (title : String) (elems : List CardElem)
deriving Repr

def jsonMarkdownPre : String := "\x7b\"tag\":\"markdown\",\"content\":"
def jsonHrStr : String := "\x7b\"tag\":\"hr\"\x7d"
def jsonPanelPre : String :=
  "\x7b\"tag\":\"collapsible_panel\",\"expanded\":false,\"header\":\x7b\"title\":\x7b\"tag\":\"plain_text\",\"content\":"
def jsonPanelMid : String := "\x7d\x7d,\"elements\":["
def jsonPanelPost : String := "]\x7d"
def jsonObjClose : String := "\x7d"
def commaStr : String := ","

/- `JSON.stringify` of a card element, with keys in the insertion order the
source constructs them.  `jsonOfElemList` is the comma-joined serialization of
an array of elements. -/
mutual

def jsonOfElem : CardElem → String
  | CardElem.markdown content => jsonMarkdownPre ++ jsonQuote content ++ jsonObjClose
  | CardElem.hr => jsonHrStr
  | CardElem.panel title elems =>
      jsonPanelPre ++ jsonQuote title ++ jsonPanelMid
        ++ jsonOfElemList elems ++ jsonPanelPost

def jsonOfElemList : List CardElem → String
  | [] => ""
  | [e] => jsonOfElem e
  | e :: rest => jsonOfElem e ++ commaStr ++ jsonOfElemList rest

end

/-- Source: `estimateElementSize(element) = JSON.stringify(element).length`. -/
def estimateElementSize (e : CardElem) : Nat :=
  jsLen (jsonOfElem e)

/-- Source: `escapeCodeBlockContent`, i.e. `text.replace(/```/g, '\x60 \x60 \x60')`,
as the left-to-right scan the regex engine performs: at each position, if the
next three characters are backticks, emit the replacement and continue after
them, otherwise emit the character. -/
def escListChars : List Char → List Char
  | [] => []
  | c :: rest =>
      if c = '`' then
        match rest with
        | '`' :: '`' :: r => '`' :: ' ' :: '`' :: ' ' :: '`' :: escListChars r
        | [] => [c]
        | [d] => c :: escListChars [d]
        | d :: e :: r => c :: escListChars (d :: e :: r)
      else c :: escListChars rest

def escapeCodeBlockContent (text : String) : String :=
  String.mk (escListChars text.data)

/-! ### Formatter helpers (src/formatter/card.ts) -/

def emptyStr : String := ""
def spaceStr : String := " "
def nlStr : String := "\n"
def sep2 : String := "\n\n"
def slashStr : String := "/"
def dotStr : String := "."
def dotDotStr : String := ".."

def asciiLower (s : String) : String :=
  String.mk (s.data.map Char.toLower)

def strHasPrefixB : List Char → List Char → Bool
  | [], _ => true
  | _ :: _, [] => false
  | p :: ps, c :: cs => p == c && strHasPrefixB ps cs

def listContainsB (pat : List Char) : List Char → Bool
  | [] => strHasPrefixB pat []
  | c :: cs => strHasPrefixB pat (c :: cs) || listContainsB pat cs

/-- JavaScript `s.includes(pat)`. -/
def strContainsB (s pat : String) : Bool :=
  listContainsB pat.data s.data

def pathStr : String := "path"
def fileStr : String := "file"
def workdirStr : String := "workdir"

/-- Source: `isPathKey` — lowercased key contains "path" or "file", or equals
"workdir". -/
def isPathKey (key : String) : Bool :=
  let lowerKey := asciiLower key
  strContainsB lowerKey pathStr || strContainsB lowerKey fileStr || lowerKey == workdirStr

/-- node `path.isAbsolute` for POSIX paths. -/
def jsIsAbsolute (s : String) : Bool :=
  match s.data with
  | '/' :: _ => true
  | _ => false

def normalizeSegs (segs : List String) : List String :=
  segs.foldl
    (fun acc seg =>
      if seg == emptyStr || seg == dotStr then acc
      else if seg == dotDotStr then acc.dropLast
      else acc ++ [seg]) []

/-- node `path.resolve(cwd, value)` for an absolute `cwd` and relative
`value`: join, then normalize `.`/`..`/empty segments. -/
def posixResolve (cwd value : String) : String :=
  slashStr ++ String.intercalate slashStr
    (normalizeSegs ((cwd ++ slashStr ++ value).splitOn slashStr))

/-- Source: `ensureAbsolutePath` — absolute values returned unchanged,
relative values resolved against the process working directory `cwd`. -/
def ensureAbsolutePath (cwd value : String) : String :=
  if jsIsAbsolute value then value else posixResolve cwd value

/-- One entry value of a tool call's `input` record (`Record<string, unknown>`).
`vnull` covers `null`/`undefined` (skipped by `formatToolInput`); a non-string,
non-null value is represented by its `JSON.stringify` rendering. -/
inductive InputValue where
  | vstr (s : String)
  | vnull
  | vother (json : String)
deriving DecidableEq, Repr

def ellipsisStr : String := "..."
def boldPre : String := "**"
def boldMid : String := "**: `"
def backtickStr : String := "`"

def formatToolInputLine (cwd : String) (key : String) : InputValue → Option String
  | InputValue.vnull => none
  | InputValue.vstr v =>
      let processed := if isPathKey key && !(v.trim == emptyStr) then ensureAbsolutePath cwd v else v
      let display := if jsLen processed > 100 then jsTake processed 100 ++ ellipsisStr else processed
      some (boldPre ++ key ++ boldMid ++ display ++ backtickStr)
  | InputValue.vother j =>
      let display := if jsLen j > 100 then jsTake j 100 ++ ellipsisStr else j
      some (boldPre ++ key ++ boldMid ++ display ++ backtickStr)

/-- Source: `formatToolInput` — one `**key**: `value`` line per non-null entry,
path-like string values made absolute, values truncated past 100 units. -/
def formatToolInput (cwd : String) (input : List (String × InputValue)) : String :=
  String.intercalate nlStr (input.filterMap (fun kv => formatToolInputLine cwd kv.1 kv.2))

def runningStr : String := "running"
def pendingStr : String := "pending"
def completedStr : String := "completed"
def completeStr : String := "complete"
def successStr : String := "success"
def errorStr : String := "error"
def failedStr : String := "failed"
def hourglassStr : String := "⏳"
def checkStr : String := "✅"
def crossStr : String := "❌"
def wrenchStr : String := "🔧"

/-- Source: `getStatusEmoji` — switch over the lowercased status. -/
def getStatusEmoji (status : String) : String :=
  let s := asciiLower status
  if s == runningStr || s == pendingStr then hourglassStr
  else if s == completedStr || s == completeStr || s == successStr then checkStr
  else if s == errorStr || s == failedStr then crossStr
  else wrenchStr

def MAX_CARD_CONTENT_LENGTH : Nat := 28000
def TRUNCATION_SUFFIX : String := "\n\n... (内容已截断)"

/-- Source: `truncateContent` — cap card markdown at
`MAX_CARD_CONTENT_LENGTH`, reserving room for the truncation suffix. -/
def truncateContent (content : String) : String :=
  if jsLen content ≤ MAX_CARD_CONTENT_LENGTH then content
  else jsTake content (MAX_CARD_CONTENT_LENGTH - jsLen TRUNCATION_SUFFIX) ++ TRUNCATION_SUFFIX

def MAX_CARD_SIZE : Nat := 25000
def MAX_REASONING_LENGTH : Nat := 3000
def MAX_TOOL_OUTPUT_LENGTH : Nat := 5000

def fenceOpen : String := "```\n"
def fenceClose : String := "\n```"
def errorLabel : String := "**错误：**\n"
def outputTrunc : String := "\n... (输出已截断)"
def reasoningTrunc : String := "\n... (思考内容已截断)"

/-- Markdown content of a reasoning panel body (`'```\n' + escaped + '\n```'`
at src/formatter/card.ts:450). -/
def reasoningBlockContent (t : String) : String :=
  fenceOpen ++ escapeCodeBlockContent t ++ fenceClose

/-- Markdown content of a tool-call error block (src/formatter/card.ts:476). -/
def toolErrorContent (e : String) : String :=
  errorLabel ++ fenceOpen ++ escapeCodeBlockContent e ++ fenceClose

/-- Truncation of a tool call's output to `MAX_TOOL_OUTPUT_LENGTH`
(src/formatter/card.ts:479-482). -/
def truncateToolOutput (o : String) : String :=
  if jsLen o > MAX_TOOL_OUTPUT_LENGTH then jsTake o MAX_TOOL_OUTPUT_LENGTH ++ outputTrunc else o

/-- Markdown content of a tool-call output block (src/formatter/card.ts:483-486). -/
def toolOutputContent (o : String) : String :=
  fenceOpen ++ escapeCodeBlockContent (truncateToolOutput o) ++ fenceClose

/-! ### buildStreamingCardsV2 (src/formatter/card.ts:376-537) -/

inductive PartType where
  | text
  | reasoning
  | toolCall
deriving DecidableEq, Repr

/-- Source: interface `OrderedPart`. (`createdAt` has no counterpart because
the interface has none.) -/
structure OrderedPart where
  type : PartType
  text : Option String := none
  name : Option String := none
  state : Option String := none
  title : Option String := none
  input : Option (List (String × InputValue)) := none
  output : Option String := none
  error : Option String := none
deriving Repr

/-- JavaScript truthiness of an optional string (`undefined` and `''` are
falsy). -/
def truthy : Option String → Bool
  | none => false
  | some s => !(s == emptyStr)

structure PartGroup where
  type : PartType
  parts : List OrderedPart
deriving Repr

/-- Source: `groupConsecutiveParts` — maximal runs of consecutive same-type
parts, in arrival order. -/
def groupConsecutiveParts (parts : List OrderedPart) : List PartGroup :=
  parts.foldl
    (fun groups part =>
      match groups.getLast? with
      | some lastGroup =>
          if lastGroup.type == part.type then
            groups.dropLast ++ [⟨lastGroup.type, lastGroup.parts ++ [part]⟩]
          else groups ++ [⟨part.type, [part]⟩]
      | none => [⟨part.type, [part]⟩]) []

def runningPlaceholder : String := "*执行中...*"

/-- The tool-call panel built for one part of a tool-call group
(src/formatter/card.ts:457-501); `none` when `tool.name` is falsy and the
part is skipped. -/
def renderToolPanel (cwd : String) (tool : OrderedPart) : Option CardElem :=
  match tool.name with
  | none => none
  | some n =>
    if n == emptyStr then none
    else
      let emoji := getStatusEmoji (tool.state.getD pendingStr)
      let inputElems : List CardElem :=
        match tool.input with
        | some kvs =>
            if kvs.isEmpty then []
            else
              let inputLines := formatToolInput cwd kvs
              if inputLines == emptyStr then [] else [CardElem.markdown inputLines]
        | none => []
      let toolElements : List CardElem :=
        if truthy tool.error then
          inputElems ++ [CardElem.markdown (toolErrorContent (tool.error.getD emptyStr))]
        else if truthy tool.output then
          inputElems ++ [CardElem.markdown (toolOutputContent (tool.output.getD emptyStr))]
        else inputElems
      let panelTitle := if truthy tool.title then tool.title.getD emptyStr else n
      some (CardElem.panel (emoji ++ spaceStr ++ panelTitle)
        (if toolElements.isEmpty then [CardElem.markdown runningPlaceholder] else toolElements))

/-- One artifact of `buildStreamingCardsV2` (schema 2.0 card):
header title, header template color, body elements. -/
structure CardV2 where
  title : String
  template : String
  elements : List CardElem
deriving Repr

structure CardBuildResult where
  cards : List CardV2
  hasMore : Bool
deriving Repr

def greenStr : String := "green"
def wathetStr : String := "wathet"
def doneTitle : String := "响应完成"
def processingTitle : String := "处理中..."
def contMarkerPre : String := " (续"
def parenCloseStr : String := ")"
def noContentStr : String := "（无内容）"
def dotsStr : String := "..."
def thinkTitle : String := "💭 思考过程"

/-- Source: the `createCard` closure inside `buildStreamingCardsV2`
(src/formatter/card.ts:388-401). -/
def mkCardV2 (title? : Option String) (isComplete : Bool) (cardIndex : Nat)
    (elements : List CardElem) (isFinal : Bool) : CardV2 :=
  let template := if isFinal && isComplete then greenStr else wathetStr
  let headerTitle := title?.getD (if isFinal && isComplete then doneTitle else processingTitle)
  let cardTitle :=
    if cardIndex > 0 then headerTitle ++ contMarkerPre ++ toString cardIndex ++ parenCloseStr
    else headerTitle
  ⟨cardTitle, template, elements⟩

/-- Mutable locals of `buildStreamingCardsV2`'s accumulation loop. -/
structure BuildState where
  cards : List CardV2
  currentElements : List CardElem
  currentSize : Nat
  cardIndex : Nat
  reasoningIndex : Nat
deriving Repr

def initBuildState : BuildState := ⟨[], [], 0, 0, 0⟩

/-- Source: the `flushCard` closure (src/formatter/card.ts:403-410). -/
def flushCard (title? : Option String) (isComplete : Bool) (st : BuildState) : BuildState :=
  if st.currentElements.isEmpty then st
  else
    { st with
      cards := st.cards ++ [mkCardV2 title? isComplete st.cardIndex st.currentElements false]
      cardIndex := st.cardIndex + 1
      currentElements := []
      currentSize := 0 }

/-- Source: the `addElement` closure (src/formatter/card.ts:412-421). -/
def addElement (title? : Option String) (isComplete : Bool) (st : BuildState)
    (e : CardElem) : BuildState :=
  let elementSize := estimateElementSize e
  let st' :=
    if st.currentSize + elementSize > MAX_CARD_SIZE && !st.currentElements.isEmpty then
      flushCard title? isComplete st
    else st
  { st' with
    currentElements := st'.currentElements ++ [e]
    currentSize := st'.currentSize + elementSize }

def nonEmptyText (p : OrderedPart) : Option String :=
  match p.text with
  | some t => if t == emptyStr then none else some t
  | none => none

/-- Body of the `for (const group of groups)` loop
(src/formatter/card.ts:423-525). -/
def processGroup (cwd : String) (title? : Option String) (isComplete : Bool)
    (multiReasoning : Bool) (st : BuildState) (g : PartGroup) : BuildState :=
  match g.type with
  | PartType.reasoning =>
      let st := { st with reasoningIndex := st.reasoningIndex + 1 }
      let reasoningTexts := g.parts.filterMap nonEmptyText
      if reasoningTexts.isEmpty then st
      else
        let combined0 := String.intercalate sep2 reasoningTexts
        let combinedText :=
          if jsLen combined0 > MAX_REASONING_LENGTH then
            jsTake combined0 MAX_REASONING_LENGTH ++ reasoningTrunc
          else combined0
        let panelTitle :=
          if multiReasoning then thinkTitle ++ spaceStr ++ toString st.reasoningIndex
          else thinkTitle
        addElement title? isComplete st
          (CardElem.panel panelTitle [CardElem.markdown (reasoningBlockContent combinedText)])
  | PartType.toolCall =>
      g.parts.foldl
        (fun s tool =>
          match renderToolPanel cwd tool with
          | some e => addElement title? isComplete s e
          | none => s) st
  | PartType.text =>
      let textContents := g.parts.filterMap nonEmptyText
      if textContents.isEmpty then st
      else
        let st := if st.currentElements.isEmpty then st else addElement title? isComplete st CardElem.hr
        addElement title? isComplete st
          (CardElem.markdown (truncateContent (String.intercalate sep2 textContents)))

/-- Source: `buildStreamingCardsV2(parts, isComplete, title)`; `cwd` is the
ambient `process.cwd()` read by `ensureAbsolutePath`. -/
def buildStreamingCardsV2 (cwd : String) (parts : List OrderedPart)
    (isComplete : Bool) (title? : Option String) : CardBuildResult :=
  let groups := groupConsecutiveParts parts
  let multiReasoning := (groups.filter (fun g => g.type == PartType.reasoning)).length > 1
  let st := groups.foldl (processGroup cwd title? isComplete multiReasoning) initBuildState
  let finalElems :=
    if st.currentElements.isEmpty then
      [CardElem.markdown (if isComplete then noContentStr else dotsStr)]
    else st.currentElements
  ⟨st.cards ++ [mkCardV2 title? isComplete st.cardIndex finalElems true], false⟩

/-! ### LaneQueue (src/queue/lane-queue.ts)

The scheduler's asynchronous execution is modelled as a transition system.
Each transition is one synchronous block of the JavaScript code (code between
`await` points, which the single-threaded runtime executes atomically):

* `LaneQueue.enqueue` — the whole body of `enqueue` up to and including the
  synchronous prefix of the triggered `processLane` call (guard, mark
  `processing`, bump the global counter, shift the front task and start its
  handler);
* `LaneQueue.settleCurrent` — what runs when the awaited
  `Promise.race([handler, timeout])` settles: resolve/reject the task, then
  either shift the next task (loop continuation) or run the `finally` block
  (unmark `processing`, decrement the counter, `cleanupEmptyLane`,
  `tryProcessPendingLanes`);
* `LaneQueue.abort` / `LaneQueue.clear` — the bodies of `abort`/`clear`.

Task settlements (`resolve`/`reject` calls) are observed through an
append-only `settledLog`; `handler`, `resolve`, `reject` and the never-read
`createdAt` field have no other observable effect on the scheduler state. -/

inductive QueueMode where
  | collect
  | steer
  | followup
deriving DecidableEq, Repr

inductive OverflowStrategy where
  | drop
  | reject
  | wait
deriving DecidableEq, Repr

structure QueuedTask where
  id : Nat
  mode : QueueMode
  priority : Int
deriving DecidableEq, Repr

structure Lane where
  queue : List QueuedTask
  processing : Bool
  currentTask : Option QueuedTask
deriving DecidableEq, Repr

structure LaneQueueConfig where
  maxConcurrency : Nat := 10
  maxQueueSize : Nat := 100
  defaultMode : QueueMode := QueueMode.collect
  overflowStrategy : OverflowStrategy := OverflowStrategy.wait
  taskTimeoutMs : Nat := 300000
deriving Repr

/-- How a task's result handle settled: `success`/`failed`/`timedOut` from the
pump's `Promise.race`, the others from `abort`/`clear`/steer supersession. -/
inductive TaskOutcome where
  | success
  | failed
  | timedOut
  | aborted
  | cleared
  | superseded
deriving DecidableEq, Repr

structure LaneQueueState where
  lanes : List (String × Lane)
  globalConcurrency : Nat
  taskIdCounter : Nat
  settledLog : List (Nat × TaskOutcome)
deriving Repr

namespace LaneQueue

def initState : LaneQueueState := ⟨[], 0, 0, []⟩

def emptyLane : Lane := ⟨[], false, none⟩

/-- `this.lanes.get(key)` on the insertion-ordered lane table. -/
def lookupLane (key : String) : List (String × Lane) → Option Lane
  | [] => none
  | (k, l) :: rest => if k = key then some l else lookupLane key rest

/-- `this.lanes.set(key, lane)` for a key already present. -/
def setLane (key : String) (lane : Lane) (lanes : List (String × Lane)) :
    List (String × Lane) :=
  lanes.map (fun p => if p.1 = key then (p.1, lane) else p)

/-- `this.lanes.delete(key)`. -/
def removeLane (key : String) : List (String × Lane) → List (String × Lane)
  | [] => []
  | p :: rest => if p.1 = key then removeLane key rest else p :: removeLane key rest

/-- Source: `getOrCreateLane` (src/queue/lane-queue.ts:150-157). -/
def getOrCreateLane (key : String) (s : LaneQueueState) : LaneQueueState :=
  match lookupLane key s.lanes with
  | some _ => s
  | none => { s with lanes := s.lanes ++ [(key, emptyLane)] }

/-- Source: `insertByPriority` (src/queue/lane-queue.ts:159-171) — insert
before the first queued task of strictly smaller priority, else append. -/
def insertByPriority (queue : List QueuedTask) (task : QueuedTask) : List QueuedTask :=
  match queue with
  | [] => [task]
  | q :: rest =>
      if task.priority > q.priority then task :: q :: rest
      else q :: insertByPriority rest task

/-- The synchronous prefix of `processLane` (src/queue/lane-queue.ts:173-194):
guards, mark `processing`, increment the global counter, shift the front task
and start it. -/
def pumpStart (cfg : LaneQueueConfig) (key : String) (s : LaneQueueState) : LaneQueueState :=
  match lookupLane key s.lanes with
  | none => s
  | some lane =>
    if lane.processing then s
    else
      match lane.queue with
      | [] => s
      | t :: rest =>
        if s.globalConcurrency ≥ cfg.maxConcurrency then s
        else
          { s with
            lanes := setLane key ⟨rest, true, some t⟩ s.lanes
            globalConcurrency := s.globalConcurrency + 1 }

/-- Source: `cleanupEmptyLane` (src/queue/lane-queue.ts:212-217). -/
def cleanupEmptyLane (key : String) (s : LaneQueueState) : LaneQueueState :=
  match lookupLane key s.lanes with
  | some lane =>
      if lane.queue.isEmpty && !lane.processing then
        { s with lanes := removeLane key s.lanes }
      else s
  | none => s

/-- Source: `tryProcessPendingLanes` (src/queue/lane-queue.ts:219-228) — sweep
the lane table in insertion order, starting every idle non-empty lane until
the concurrency ceiling is hit (the ceiling break is re-checked inside
`pumpStart`). -/
def tryProcessPendingLanes (cfg : LaneQueueConfig) (s : LaneQueueState) : LaneQueueState :=
  if s.globalConcurrency ≥ cfg.maxConcurrency then s
  else (s.lanes.map (fun p => p.1)).foldl (fun st k => pumpStart cfg k st) s

/-- The settlement of the in-flight task of `key`'s lane with `outcome`
(src/queue/lane-queue.ts:184-210): log the settlement, then either continue
the `while` loop with the next queued task, or run the `finally` block. -/
def settleCurrent (cfg : LaneQueueConfig) (key : String) (outcome : TaskOutcome)
    (s : LaneQueueState) : LaneQueueState :=
  match lookupLane key s.lanes with
  | none => s
  | some lane =>
    match lane.currentTask with
    | none => s
    | some t =>
      let log := s.settledLog ++ [(t.id, outcome)]
      match lane.queue with
      | next :: rest =>
          { s with
            lanes := setLane key ⟨rest, lane.processing, some next⟩ s.lanes
            settledLog := log }
      | [] =>
          let s' :=
            { s with
              lanes := setLane key ⟨[], false, none⟩ s.lanes
              globalConcurrency := s.globalConcurrency - 1
              settledLog := log }
          tryProcessPendingLanes cfg (cleanupEmptyLane key s')

inductive EnqueueOutcome where
  | queued (id : Nat)
  | overflow
deriving DecidableEq, Repr

/-- Source: `enqueue(sessionKey, handler, {mode, priority})`
(src/queue/lane-queue.ts:47-95): lane creation, overflow check, steer
supersession, priority insertion, and the synchronous start of the lane's
pump.  `overflow` stands for both thrown `Queue overflow`/`Queue full`
errors (`drop` and `reject` behave identically). -/
def enqueue (cfg : LaneQueueConfig) (key : String) (mode : QueueMode) (priority : Int)
    (s : LaneQueueState) : LaneQueueState × EnqueueOutcome :=
  let s := getOrCreateLane key s
  match lookupLane key s.lanes with
  | none => (s, EnqueueOutcome.overflow)
  | some lane =>
    if lane.queue.length ≥ cfg.maxQueueSize
        && !(cfg.overflowStrategy == OverflowStrategy.wait) then
      (s, EnqueueOutcome.overflow)
    else
      let id := s.taskIdCounter + 1
      let task : QueuedTask := ⟨id, mode, priority⟩
      let doSteer := mode == QueueMode.steer && !lane.queue.isEmpty
      let q := if doSteer then lane.queue.filter (fun t => !(t.mode == QueueMode.collect)) else lane.queue
      let log :=
        if doSteer then
          s.settledLog ++ (lane.queue.filter (fun t => t.mode == QueueMode.collect)).map
            (fun t => (t.id, TaskOutcome.superseded))
        else s.settledLog
      let s' :=
        { s with
          lanes := setLane key ⟨insertByPriority q task, lane.processing, lane.currentTask⟩ s.lanes
          taskIdCounter := id
          settledLog := log }
      (pumpStart cfg key s', EnqueueOutcome.queued id)

/-- Source: `abort(sessionKey)` (src/queue/lane-queue.ts:97-109) — reject all
queued tasks, empty the queue, return the count; the lane entry itself stays
in the table. -/
def abort (key : String) (s : LaneQueueState) : LaneQueueState × Nat :=
  match lookupLane key s.lanes with
  | none => (s, 0)
  | some lane =>
      ({ s with
          lanes := setLane key ⟨[], lane.processing, lane.currentTask⟩ s.lanes
          settledLog := s.settledLog ++ lane.queue.map (fun t => (t.id, TaskOutcome.aborted)) },
       lane.queue.length)

/-- Source: `clear(sessionKey?)` (src/queue/lane-queue.ts:131-148). -/
def clear (key? : Option String) (s : LaneQueueState) : LaneQueueState :=
  match key? with
  | some key =>
    match lookupLane key s.lanes with
    | some lane =>
        { s with
          lanes := setLane key ⟨[], lane.processing, lane.currentTask⟩ s.lanes
          settledLog := s.settledLog ++ lane.queue.map (fun t => (t.id, TaskOutcome.cleared)) }
    | none => s
  | none =>
    { s with
      lanes := s.lanes.map (fun p => (p.1, ⟨[], p.2.processing, p.2.currentTask⟩))
      settledLog := s.settledLog
        ++ s.lanes.flatMap (fun p => p.2.queue.map (fun t => (t.id, TaskOutcome.cleared))) }

/-- Source: `getQueueLength` (src/queue/lane-queue.ts:111-113). -/
def getQueueLength (key : String) (s : LaneQueueState) : Nat :=
  match lookupLane key s.lanes with
  | some lane => lane.queue.length
  | none => 0

/-- Source: `isProcessing` (src/queue/lane-queue.ts:115-117). -/
def isProcessing (key : String) (s : LaneQueueState) : Bool :=
  match lookupLane key s.lanes with
  | some lane => lane.processing
  | none => false

/-- Source: `getTotalQueueLength` (src/queue/lane-queue.ts:119-125). -/
def getTotalQueueLength (s : LaneQueueState) : Nat :=
  s.lanes.foldl (fun n p => n + p.2.queue.length) 0

/-- Source: `getActiveCount` (src/queue/lane-queue.ts:127-129). -/
def getActiveCount (s : LaneQueueState) : Nat :=
  s.globalConcurrency

/-- One transition of the scheduler: a public call's synchronous block, or a
running task's settlement.  (`settle` is stated for every outcome; the pump
itself only produces `success`/`failed`/`timedOut`, so the safety theorems
proved over this relation cover the code's behaviors a fortiori.) -/
inductive Step (cfg : LaneQueueConfig) : LaneQueueState → LaneQueueState → Prop where
  | enq (key : String) (mode : QueueMode) (priority : Int) (s : LaneQueueState) :
      Step cfg s (enqueue cfg key mode priority s).1
  | settle (key : String) (outcome : TaskOutcome) (s : LaneQueueState) :
      Step cfg s (settleCurrent cfg key outcome s)
  | doAbort (key : String) (s : LaneQueueState) :
      Step cfg s (abort key s).1
  | doClear (key? : Option String) (s : LaneQueueState) :
      Step cfg s (clear key? s)

/-- States reachable from a freshly constructed `LaneQueue`. -/
inductive Reachable (cfg : LaneQueueConfig) : LaneQueueState → Prop where
  | init : Reachable cfg initState
  | step {s s' : LaneQueueState} : Reachable cfg s → Step cfg s s' → Reachable cfg s'

end LaneQueue

/-! ### Derived observers and spec-side comparison definitions -/

/-- The pending queue of `key`'s lane (empty when the lane is absent). -/
def queueOfKey (key : String) (s : LaneQueueState) : List QueuedTask :=
  match LaneQueue.lookupLane key s.lanes with
  | some lane => lane.queue
  | none => []

/-- The in-flight task of `key`'s lane (`none` when absent or idle). -/
def currentTaskOfKey (key : String) (s : LaneQueueState) : Option QueuedTask :=
  match LaneQueue.lookupLane key s.lanes with
  | some lane => lane.currentTask
  | none => none

/-- Number of lanes whose `processing` flag is set. -/
def countProcessing (lanes : List (String × Lane)) : Nat :=
  (lanes.filter (fun p => p.2.processing)).length

/-- A lane entry is well-formed when an in-flight task implies the
processing flag. -/
def laneWF (p : String × Lane) : Prop :=
  p.2.currentTask.isSome → p.2.processing = true

/-- The scheduler's internal invariant: the global counter counts exactly the
processing lanes and respects the ceiling, lane keys are unique, and every
lane is well-formed. -/
def schedInv (cfg : LaneQueueConfig) (s : LaneQueueState) : Prop :=
  s.globalConcurrency = countProcessing s.lanes ∧
  s.globalConcurrency ≤ cfg.maxConcurrency ∧
  (s.lanes.map Prod.fst).Nodup ∧
  ∀ p ∈ s.lanes, laneWF p

/-- Written from the spec's words for the insertion claim: "find the first
existing queued task whose `priority` is strictly less than the new task's
priority and insert immediately before it; if none exists, append at the
end" — to be compared with the source's `LaneQueue.insertByPriority`. -/
def specInsertByPriority (queue : List QueuedTask) (task : QueuedTask) : List QueuedTask :=
  queue.takeWhile (fun t => !decide (t.priority < task.priority)) ++
    task :: queue.dropWhile (fun t => !decide (t.priority < task.priority))

/-- `n` successive settlements of `key`'s in-flight task (each one
`LaneQueue.settleCurrent` with a successful handler). -/
def runSettles (cfg : LaneQueueConfig) (key : String) : Nat → LaneQueueState → LaneQueueState
  | 0, s => s
  | n + 1, s => runSettles cfg key n (LaneQueue.settleCurrent cfg key TaskOutcome.success s)

/-- `n` successive collect-mode enqueues of priority `p` on `key`. -/
def enqueueCollectN (cfg : LaneQueueConfig) (key : String) (p : Int) :
    Nat → LaneQueueState → LaneQueueState
  | 0, s => s
  | n + 1, s => enqueueCollectN cfg key p n (LaneQueue.enqueue cfg key QueueMode.collect p s).1

/-- The tasks that `n` successive collect-mode enqueues of priority `p` mint
when the id counter starts at `c`. -/
def mintedCollect (c : Nat) (p : Int) (n : Nat) : List QueuedTask :=
  (List.range n).map (fun i => ⟨c + 1 + i, QueueMode.collect, p⟩)

/-- Total estimated size of a card's elements (the quantity
`buildStreamingCardsV2` accumulates in `currentSize`). -/
def totalElemSize (elems : List CardElem) : Nat :=
  elems.foldl (fun n e => n + estimateElementSize e) 0

/-- The page marker `buildStreamingCardsV2` appends to the title of every
card after the first: ` (续i)`. -/
def pageMarker (i : Nat) : String :=
  contMarkerPre ++ toString i ++ parenCloseStr

/-- The title of the `i`-th of `total` cards of one render call. -/
def expectedCardTitle (title? : Option String) (isComplete : Bool) (total i : Nat) : String :=
  let base :=
    title?.getD
      (if i + 1 = total then (if isComplete then doneTitle else processingTitle)
       else processingTitle)
  if i > 0 then base ++ pageMarker i else base

/-- Invariant of `buildStreamingCardsV2`'s accumulation loop: the running
card index equals the number of sealed cards, `currentSize` is the total
estimated size of the accumulated elements, the accumulator is within the
size bound unless it holds a single element, and every sealed (non-final)
card carries the page marker of its index (none for index 0) and respects
the size bound unless it consists of a single element. -/
def buildInv (title? : Option String) (st : BuildState) : Prop :=
  st.cardIndex = st.cards.length ∧
  st.currentSize = totalElemSize st.currentElements ∧
  (st.currentSize ≤ MAX_CARD_SIZE ∨ st.currentElements.length ≤ 1) ∧
  ∀ i card, st.cards[i]? = some card →
    card.title = (if i > 0 then (title?.getD processingTitle) ++ pageMarker i
      else (title?.getD processingTitle)) ∧
    (totalElemSize card.elements ≤ MAX_CARD_SIZE ∨ card.elements.length = 1)

/-- Split a character sequence into its lines (boundaries at `'\n'`). -/
def splitNl : List Char → List (List Char)
  | [] => [[]]
  | c :: rest =>
      if c = '\n' then [] :: splitNl rest
      else
        match splitNl rest with
        | l :: ls => (c :: l) :: ls
        | [] => [[c]]

def fenceChars : List Char := ['`', '`', '`']

/-- Whether a line starts with a triple backtick (a fence delimiter in
markdown, which must sit at the start of a line to open or close a block). -/
def fenceStartB (l : List Char) : Bool :=
  strHasPrefixB fenceChars l

/-- A markdown string whose fenced code block is well-formed: reading its
lines top to bottom, exactly two lines start with a triple backtick — the
opening fence and the final line (the closing fence) — so the embedded text
never terminates the block early. -/
def wellFormedFenceBlock (s : String) : Prop :=
  (splitNl s.data).filter fenceStartB = [fenceChars, fenceChars] ∧
  (splitNl s.data).getLast? = some fenceChars

/-! ### Concrete inputs used by counterexamples and witnesses -/

def cwdW : String := "/work"
def keyA : String := "a"
def keyB : String := "b"
def bashStr : String := "bash"
def cmdStr : String := "cmd"
def lsStr : String := "ls"
def cmdLineStr : String := "**cmd**: `ls`"

def cexC2Part : OrderedPart :=
  { type := PartType.toolCall
    name := some bashStr
    state := some runningStr
    input := some [(cmdStr, InputValue.vstr lsStr)] }

def tStr : String := "t"
def outStr : String := String.mk (List.replicate 400 'x')

/-- 60 identical tool-call fragments whose panels together exceed
`MAX_CARD_SIZE`, forcing pagination. -/
def cexC1Parts : List OrderedPart :=
  List.replicate 60 { type := PartType.toolCall, name := some tStr, output := some outStr }

def cfgC3 : LaneQueueConfig := { maxConcurrency := 1 }

/-- maxConcurrency 1: the first enqueue starts lane `b`'s pump; the second
leaves lane `a` idle with one queued task (blocked by the ceiling). -/
def c3s2 : LaneQueueState :=
  (LaneQueue.enqueue cfgC3 keyA QueueMode.collect 0
    (LaneQueue.enqueue cfgC3 keyB QueueMode.collect 0 LaneQueue.initState).1).1

def cfgDrop : LaneQueueConfig := { maxQueueSize := 0, overflowStrategy := OverflowStrategy.drop }
def cfgWait : LaneQueueConfig := { maxQueueSize := 0, overflowStrategy := OverflowStrategy.wait }

/-- maxConcurrency 1: lane `a` processing task 1 with tasks 2 (collect) and
3 (followup) queued — the state a steer enqueue is applied to. -/
def c5state : LaneQueueState :=
  (LaneQueue.enqueue cfgC3 keyA QueueMode.followup 0
    (LaneQueue.enqueue cfgC3 keyA QueueMode.collect 0
      (LaneQueue.enqueue cfgC3 keyA QueueMode.collect 0 LaneQueue.initState).1).1).1


/-! ### Helper lemmas on the lane table -/

theorem lq_lookup_cons (key : String) (p : String × Lane) (rest : List (String × Lane)) :
    LaneQueue.lookupLane key (p :: rest) =
      if p.1 = key then some p.2 else LaneQueue.lookupLane key rest := rfl

theorem lq_setLane_cons (key : String) (lane : Lane) (p : String × Lane)
    (rest : List (String × Lane)) :
    LaneQueue.setLane key lane (p :: rest) =
      (if p.1 = key then (p.1, lane) else p) :: LaneQueue.setLane key lane rest := rfl

theorem lq_removeLane_cons (key : String) (p : String × Lane)
    (rest : List (String × Lane)) :
    LaneQueue.removeLane key (p :: rest) =
      if p.1 = key then LaneQueue.removeLane key rest
      else p :: LaneQueue.removeLane key rest := rfl

theorem lq_lookup_append_none (key : String) (xs ys : List (String × Lane))
    (h : LaneQueue.lookupLane key xs = none) :
    LaneQueue.lookupLane key (xs ++ ys) = LaneQueue.lookupLane key ys := by
  induction xs with
  | nil => simp
  | cons p rest ih =>
      rw [lq_lookup_cons] at h
      rw [List.cons_append, lq_lookup_cons]
      by_cases hk : p.1 = key
      · rw [if_pos hk] at h
        exact absurd h (by simp)
      · rw [if_neg hk] at h
        rw [if_neg hk]
        exact ih h

theorem lq_lookup_append_some (key : String) (xs ys : List (String × Lane))
    (l : Lane) (h : LaneQueue.lookupLane key xs = some l) :
    LaneQueue.lookupLane key (xs ++ ys) = some l := by
  induction xs with
  | nil => simp [LaneQueue.lookupLane] at h
  | cons p rest ih =>
      rw [lq_lookup_cons] at h
      rw [List.cons_append, lq_lookup_cons]
      by_cases hk : p.1 = key
      · rw [if_pos hk] at h ⊢
        exact h
      · rw [if_neg hk] at h ⊢
        exact ih h

theorem lq_lookup_setLane_self (key : String) (lane : Lane)
    (lanes : List (String × Lane)) (h : (LaneQueue.lookupLane key lanes).isSome) :
    LaneQueue.lookupLane key (LaneQueue.setLane key lane lanes) = some lane := by
  induction lanes with
  | nil => simp [LaneQueue.lookupLane] at h
  | cons p rest ih =>
      rw [lq_lookup_cons] at h
      rw [lq_setLane_cons]
      by_cases hk : p.1 = key
      · rw [if_pos hk, lq_lookup_cons]
        simp [hk]
      · rw [if_neg hk, lq_lookup_cons, if_neg hk]
        rw [if_neg hk] at h
        exact ih h

theorem lq_lookup_setLane_ne (key k' : String) (lane : Lane)
    (lanes : List (String × Lane)) (h : ¬k' = key) :
    LaneQueue.lookupLane k' (LaneQueue.setLane key lane lanes) =
      LaneQueue.lookupLane k' lanes := by
  induction lanes with
  | nil => simp [LaneQueue.setLane]
  | cons p rest ih =>
      rw [lq_setLane_cons, lq_lookup_cons, lq_lookup_cons]
      by_cases hk : p.1 = key
      · have hk2 : ¬p.1 = k' := fun hc => h (by rw [← hc, hk])
        rw [if_pos hk]
        simp only []
        rw [if_neg hk2, if_neg hk2]
        exact ih
      · rw [if_neg hk]
        by_cases hk2 : p.1 = k'
        · rw [if_pos hk2, if_pos hk2]
        · rw [if_neg hk2, if_neg hk2]
          exact ih

theorem lq_setLane_of_none (key : String) (lane : Lane)
    (lanes : List (String × Lane)) (h : LaneQueue.lookupLane key lanes = none) :
    LaneQueue.setLane key lane lanes = lanes := by
  induction lanes with
  | nil => simp [LaneQueue.setLane]
  | cons p rest ih =>
      rw [lq_lookup_cons] at h
      rw [lq_setLane_cons]
      by_cases hk : p.1 = key
      · rw [if_pos hk] at h
        exact absurd h (by simp)
      · rw [if_neg hk] at h
        rw [if_neg hk, ih h]

theorem lq_lookup_removeLane_self (key : String) (lanes : List (String × Lane)) :
    LaneQueue.lookupLane key (LaneQueue.removeLane key lanes) = none := by
  induction lanes with
  | nil => simp [LaneQueue.removeLane, LaneQueue.lookupLane]
  | cons p rest ih =>
      rw [lq_removeLane_cons]
      by_cases hk : p.1 = key
      · rw [if_pos hk]
        exact ih
      · rw [if_neg hk, lq_lookup_cons, if_neg hk]
        exact ih

theorem lq_lookup_removeLane_ne (key k' : String) (lanes : List (String × Lane))
    (h : ¬k' = key) :
    LaneQueue.lookupLane k' (LaneQueue.removeLane key lanes) =
      LaneQueue.lookupLane k' lanes := by
  induction lanes with
  | nil => simp [LaneQueue.removeLane]
  | cons p rest ih =>
      rw [lq_removeLane_cons, lq_lookup_cons]
      by_cases hk : p.1 = key
      · have hk2 : ¬p.1 = k' := fun hc => h (by rw [← hc, hk])
        rw [if_pos hk, if_neg hk2]
        exact ih
      · rw [if_neg hk, lq_lookup_cons]
        by_cases hk2 : p.1 = k'
        · rw [if_pos hk2, if_pos hk2]
        · rw [if_neg hk2, if_neg hk2]
          exact ih

theorem lq_lookup_none_setLane (key k' : String) (lane : Lane)
    (lanes : List (String × Lane)) (h : LaneQueue.lookupLane key lanes = none) :
    LaneQueue.lookupLane key (LaneQueue.setLane k' lane lanes) = none := by
  by_cases hk : key = k'
  · subst hk
    rw [lq_setLane_of_none key lane lanes h]
    exact h
  · rw [lq_lookup_setLane_ne k' key lane lanes hk]
    exact h

/-! ### C10 -/

/-- C10: for a key with no lane in the lane table, `abort` returns 0 and
changes nothing, `getQueueLength` returns 0, and `isProcessing` returns
false. -/
theorem C10_absent_key_noop (key : String) (s : LaneQueueState)
    (h : LaneQueue.lookupLane key s.lanes = none) :
    LaneQueue.abort key s = (s, 0) ∧
    LaneQueue.getQueueLength key s = 0 ∧
    LaneQueue.isProcessing key s = false := by
  refine ⟨?_, ?_, ?_⟩ <;>
    simp [LaneQueue.abort, LaneQueue.getQueueLength, LaneQueue.isProcessing, h]

/-- Witness for C10 at the empty scheduler and key `"a"`. -/
theorem C10_absent_key_noop_witness :
    LaneQueue.abort keyA LaneQueue.initState = (LaneQueue.initState, 0) ∧
    LaneQueue.getQueueLength keyA LaneQueue.initState = 0 ∧
    LaneQueue.isProcessing keyA LaneQueue.initState = false :=
  C10_absent_key_noop keyA LaneQueue.initState rfl

/-! ### C8 -/

/-- C8: `buildStreamingCardsV2` is a pure function of `(parts, isComplete,
title)` and the ambient working directory: two calls with identical inputs
and identical working directory return structurally identical artifact lists,
and the model holds no state between calls. -/
theorem C8_render_deterministic (parts : List OrderedPart) (isComplete : Bool)
    (title? : Option String) (cwd cwd' : String) (h : cwd = cwd') :
    buildStreamingCardsV2 cwd parts isComplete title? =
      buildStreamingCardsV2 cwd' parts isComplete title? := by
  rw [h]

/-- Witness for C8 at a concrete input. -/
theorem C8_render_deterministic_witness :
    buildStreamingCardsV2 cwdW [cexC2Part] true none =
      buildStreamingCardsV2 cwdW [cexC2Part] true none :=
  C8_render_deterministic [cexC2Part] true none cwdW cwdW rfl

/-! ### C2 -/

set_option maxRecDepth 8192 in
/-- C2 counterexample: a tool-call fragment with non-empty input and neither
error nor output renders into a panel whose body is exactly the input
key/value line — there is no "running" placeholder line after it, contrary to
the claim (the placeholder appears only when the body would otherwise be
empty). -/
theorem C2_counterexample :
    (buildStreamingCardsV2 cwdW [cexC2Part] false none).cards =
      [⟨processingTitle, wathetStr,
        [CardElem.panel (hourglassStr ++ spaceStr ++ bashStr)
          [CardElem.markdown cmdLineStr]]⟩] ∧
    cmdLineStr ≠ runningPlaceholder :=
  ⟨rfl, by decide⟩

/-- C2 (amended): for a tool-call fragment with truthy name, non-empty input
producing non-empty input lines, and neither a truthy error nor a truthy
output, the rendered panel body consists of the input key/value lines alone;
the "running" placeholder appears only when the body would otherwise have no
elements. -/
theorem C2_amended (cwd : String) (tool : OrderedPart) (n : String)
    (kvs : List (String × InputValue))
    (hn : tool.name = some n) (hne : ¬n = emptyStr)
    (hin : tool.input = some kvs) (hkvs : kvs.isEmpty = false)
    (hlines : ¬formatToolInput cwd kvs = emptyStr)
    (herr : truthy tool.error = false) (hout : truthy tool.output = false) :
    renderToolPanel cwd tool =
      some (CardElem.panel
        (getStatusEmoji (tool.state.getD pendingStr) ++ spaceStr ++
          (if truthy tool.title then tool.title.getD emptyStr else n))
        [CardElem.markdown (formatToolInput cwd kvs)]) := by
  rw [renderToolPanel, hn]
  simp only [hin, hkvs, herr, hout]
  rw [if_neg (by simpa using hne)]
  simp [hlines, hkvs]

/-- Witness for C2 (amended) at the concrete fragment of the
counterexample. -/
theorem C2_amended_witness :
    renderToolPanel cwdW cexC2Part =
      some (CardElem.panel
        (getStatusEmoji (cexC2Part.state.getD pendingStr) ++ spaceStr ++
          (if truthy cexC2Part.title then cexC2Part.title.getD emptyStr else bashStr))
        [CardElem.markdown (formatToolInput cwdW [(cmdStr, InputValue.vstr lsStr)])]) :=
  C2_amended cwdW cexC2Part bashStr [(cmdStr, InputValue.vstr lsStr)]
    rfl (by decide) rfl rfl (by decide) rfl rfl

/-! ### Scheduler step lemmas; C6, C5, C3 -/

theorem lq_getOrCreate_lookup (key : String) (s : LaneQueueState) :
    LaneQueue.lookupLane key (LaneQueue.getOrCreateLane key s).lanes =
      some ((LaneQueue.lookupLane key s.lanes).getD LaneQueue.emptyLane) := by
  unfold LaneQueue.getOrCreateLane
  cases h : LaneQueue.lookupLane key s.lanes with
  | some l => simp [h]
  | none =>
      simp only [h]
      rw [lq_lookup_append_none key s.lanes _ h]
      simp [LaneQueue.lookupLane]

theorem lq_getOrCreate_lookup_ne (key k : String) (s : LaneQueueState) (h : ¬k = key) :
    LaneQueue.lookupLane k (LaneQueue.getOrCreateLane key s).lanes =
      LaneQueue.lookupLane k s.lanes := by
  unfold LaneQueue.getOrCreateLane
  cases h2 : LaneQueue.lookupLane key s.lanes with
  | some l => rfl
  | none =>
      simp only []
      cases h3 : LaneQueue.lookupLane k s.lanes with
      | some l => exact lq_lookup_append_some k s.lanes _ l h3
      | none =>
          rw [lq_lookup_append_none k s.lanes _ h3]
          have h' : ¬key = k := fun hh => h hh.symm
          simp [LaneQueue.lookupLane, h']

theorem lq_getOrCreate_fields (key : String) (s : LaneQueueState) :
    (LaneQueue.getOrCreateLane key s).settledLog = s.settledLog ∧
    (LaneQueue.getOrCreateLane key s).taskIdCounter = s.taskIdCounter ∧
    (LaneQueue.getOrCreateLane key s).globalConcurrency = s.globalConcurrency := by
  unfold LaneQueue.getOrCreateLane
  cases LaneQueue.lookupLane key s.lanes <;> simp

theorem insertByPriority_mem (q : List QueuedTask) (t : QueuedTask) :
    t ∈ LaneQueue.insertByPriority q t := by
  induction q with
  | nil => simp [LaneQueue.insertByPriority]
  | cons x rest ih =>
      rw [LaneQueue.insertByPriority]
      by_cases h : t.priority > x.priority
      · simp [h]
      · simp only [h, if_false]
        exact List.mem_cons_of_mem x ih

theorem pumpStart_log (cfg : LaneQueueConfig) (key : String) (s : LaneQueueState) :
    (LaneQueue.pumpStart cfg key s).settledLog = s.settledLog := by
  unfold LaneQueue.pumpStart
  cases LaneQueue.lookupLane key s.lanes with
  | none => rfl
  | some lane =>
      by_cases hp : lane.processing
      · simp [hp]
      · simp only [hp]
        cases lane.queue with
        | nil => simp
        | cons t rest =>
            by_cases hc : s.globalConcurrency ≥ cfg.maxConcurrency <;> simp [hc]

theorem pumpStart_lookup_ne (cfg : LaneQueueConfig) (key k : String)
    (s : LaneQueueState) (h : ¬k = key) :
    LaneQueue.lookupLane k (LaneQueue.pumpStart cfg key s).lanes =
      LaneQueue.lookupLane k s.lanes := by
  unfold LaneQueue.pumpStart
  cases LaneQueue.lookupLane key s.lanes with
  | none => rfl
  | some lane =>
      by_cases hp : lane.processing
      · simp [hp]
      · simp only [hp]
        cases lane.queue with
        | nil => simp
        | cons t rest =>
            by_cases hc : s.globalConcurrency ≥ cfg.maxConcurrency
            · simp [hc]
            · simp only [hc, if_false, Bool.false_eq_true]
              exact lq_lookup_setLane_ne key k _ s.lanes h

theorem pumpStart_queue_or_current (cfg : LaneQueueConfig) (key : String)
    (s : LaneQueueState) (t : QueuedTask) (h : t ∈ queueOfKey key s) :
    t ∈ queueOfKey key (LaneQueue.pumpStart cfg key s) ∨
      currentTaskOfKey key (LaneQueue.pumpStart cfg key s) = some t := by
  unfold LaneQueue.pumpStart
  cases hl : LaneQueue.lookupLane key s.lanes with
  | none => exact Or.inl h
  | some lane =>
      by_cases hp : lane.processing
      · simp only [hp, if_true]
        exact Or.inl h
      · simp only [hp]
        cases hq : lane.queue with
        | nil => exact Or.inl h
        | cons t0 rest =>
            by_cases hc : s.globalConcurrency ≥ cfg.maxConcurrency
            · simp only [hc, if_true]
              exact Or.inl h
            · simp only [hc, if_false, Bool.false_eq_true]
              have hqk : queueOfKey key s = t0 :: rest := by
                unfold queueOfKey
                rw [hl]
                exact hq
              rw [hqk] at h
              have hset : LaneQueue.lookupLane key
                  (LaneQueue.setLane key ⟨rest, true, some t0⟩ s.lanes) =
                    some ⟨rest, true, some t0⟩ :=
                lq_lookup_setLane_self key _ s.lanes (by rw [hl]; rfl)
              rcases List.mem_cons.mp h with h1 | h2
              · right
                unfold currentTaskOfKey
                simp only [hset, h1]
              · left
                unfold queueOfKey
                simp only [hset]
                exact h2

theorem lq_getOrCreate_queueOf (key k : String) (s : LaneQueueState) :
    queueOfKey k (LaneQueue.getOrCreateLane key s) = queueOfKey k s := by
  by_cases hk : k = key
  · subst hk
    unfold queueOfKey
    rw [lq_getOrCreate_lookup]
    cases h : LaneQueue.lookupLane k s.lanes <;> simp [h, LaneQueue.emptyLane]
  · unfold queueOfKey
    rw [lq_getOrCreate_lookup_ne key k s hk]


/-- The normal (non-overflow) path of `enqueue`: steer supersession, priority
insertion, id minting, then the pump's synchronous start. -/
theorem lq_enqueue_normal (cfg : LaneQueueConfig) (key : String) (mode : QueueMode)
    (priority : Int) (s : LaneQueueState)
    (h : ¬(cfg.maxQueueSize ≤ LaneQueue.getQueueLength key s ∧
        cfg.overflowStrategy ≠ OverflowStrategy.wait)) :
    LaneQueue.enqueue cfg key mode priority s =
      (LaneQueue.pumpStart cfg key
        { LaneQueue.getOrCreateLane key s with
          lanes :=
            LaneQueue.setLane key
              ⟨LaneQueue.insertByPriority
                (if mode == QueueMode.steer && !(queueOfKey key s).isEmpty then
                  (queueOfKey key s).filter (fun t => !(t.mode == QueueMode.collect))
                else queueOfKey key s)
                ⟨s.taskIdCounter + 1, mode, priority⟩,
                LaneQueue.isProcessing key s,
                currentTaskOfKey key s⟩
              (LaneQueue.getOrCreateLane key s).lanes
          taskIdCounter := s.taskIdCounter + 1
          settledLog :=
            if mode == QueueMode.steer && !(queueOfKey key s).isEmpty then
              s.settledLog
                ++ ((queueOfKey key s).filter (fun t => t.mode == QueueMode.collect)).map
                    (fun t => (t.id, TaskOutcome.superseded))
            else s.settledLog },
       LaneQueue.EnqueueOutcome.queued (s.taskIdCounter + 1)) := by
  have hgc := lq_getOrCreate_lookup key s
  have hq : ((LaneQueue.lookupLane key s.lanes).getD LaneQueue.emptyLane).queue
      = queueOfKey key s := by
    unfold queueOfKey
    cases h2 : LaneQueue.lookupLane key s.lanes <;> simp [h2, LaneQueue.emptyLane]
  have hp : ((LaneQueue.lookupLane key s.lanes).getD LaneQueue.emptyLane).processing
      = LaneQueue.isProcessing key s := by
    unfold LaneQueue.isProcessing
    cases h2 : LaneQueue.lookupLane key s.lanes <;> simp [h2, LaneQueue.emptyLane]
  have hc : ((LaneQueue.lookupLane key s.lanes).getD LaneQueue.emptyLane).currentTask
      = currentTaskOfKey key s := by
    unfold currentTaskOfKey
    cases h2 : LaneQueue.lookupLane key s.lanes <;> simp [h2, LaneQueue.emptyLane]
  have hlen : ((LaneQueue.lookupLane key s.lanes).getD LaneQueue.emptyLane).queue.length
      = LaneQueue.getQueueLength key s := by
    unfold LaneQueue.getQueueLength
    cases h2 : LaneQueue.lookupLane key s.lanes <;> simp [h2, LaneQueue.emptyLane]
  unfold LaneQueue.enqueue
  simp only [hgc]
  rw [if_neg]
  · simp only [(lq_getOrCreate_fields key s).2.1, (lq_getOrCreate_fields key s).1,
      hq, hp, hc]
  · intro hcon
    simp only [Bool.and_eq_true, decide_eq_true_eq, Bool.not_eq_true'] at hcon
    apply h
    constructor
    · rw [← hlen]
      exact hcon.1
    · intro hwx
      rw [hwx] at hcon
      simp at hcon

theorem pumpStart_of_processing (cfg : LaneQueueConfig) (key : String)
    (s : LaneQueueState) (lane : Lane)
    (hl : LaneQueue.lookupLane key s.lanes = some lane) (hp : lane.processing = true) :
    LaneQueue.pumpStart cfg key s = s := by
  unfold LaneQueue.pumpStart
  rw [hl]
  simp [hp]

/-- C6: for an enqueue on a lane whose pending queue has reached
`maxQueueSize`: under `drop` or `reject` the call fails with an overflow
error, no lane's queue changes and no queued task settles; under `wait` the
task is queued anyway (ending up queued or started on its lane). -/
theorem C6_overflow (cfg : LaneQueueConfig) (key : String) (mode : QueueMode)
    (priority : Int) (s : LaneQueueState)
    (hfull : cfg.maxQueueSize ≤ LaneQueue.getQueueLength key s) :
    ((cfg.overflowStrategy = OverflowStrategy.drop ∨
        cfg.overflowStrategy = OverflowStrategy.reject) →
      (LaneQueue.enqueue cfg key mode priority s).2 = LaneQueue.EnqueueOutcome.overflow ∧
      (∀ k, queueOfKey k (LaneQueue.enqueue cfg key mode priority s).1 = queueOfKey k s) ∧
      (LaneQueue.enqueue cfg key mode priority s).1.settledLog = s.settledLog) ∧
    (cfg.overflowStrategy = OverflowStrategy.wait →
      (LaneQueue.enqueue cfg key mode priority s).2 =
        LaneQueue.EnqueueOutcome.queued (s.taskIdCounter + 1) ∧
      ((⟨s.taskIdCounter + 1, mode, priority⟩ : QueuedTask) ∈
          queueOfKey key (LaneQueue.enqueue cfg key mode priority s).1 ∨
        currentTaskOfKey key (LaneQueue.enqueue cfg key mode priority s).1 =
          some ⟨s.taskIdCounter + 1, mode, priority⟩)) := by
  have hgc := lq_getOrCreate_lookup key s
  have hlen : ((LaneQueue.lookupLane key s.lanes).getD LaneQueue.emptyLane).queue.length
      = LaneQueue.getQueueLength key s := by
    unfold LaneQueue.getQueueLength
    cases h : LaneQueue.lookupLane key s.lanes <;> simp [h, LaneQueue.emptyLane]
  constructor
  · intro hdr
    have hwait : cfg.overflowStrategy ≠ OverflowStrategy.wait := by
      rcases hdr with h | h <;> simp [h]
    have henq : LaneQueue.enqueue cfg key mode priority s =
        (LaneQueue.getOrCreateLane key s, LaneQueue.EnqueueOutcome.overflow) := by
      unfold LaneQueue.enqueue
      simp only [hgc]
      rw [if_pos]
      simp [hlen, hfull, hwait]
    rw [henq]
    refine ⟨rfl, ?_, (lq_getOrCreate_fields key s).1⟩
    intro k
    exact lq_getOrCreate_queueOf key k s
  · intro hw
    have hroom : ¬(cfg.maxQueueSize ≤ LaneQueue.getQueueLength key s ∧
        cfg.overflowStrategy ≠ OverflowStrategy.wait) := by
      intro hcon
      exact hcon.2 hw
    rw [lq_enqueue_normal cfg key mode priority s hroom]
    refine ⟨rfl, ?_⟩
    apply pumpStart_queue_or_current
    unfold queueOfKey
    rw [lq_lookup_setLane_self _ _ _ (by rw [hgc]; rfl)]
    exact insertByPriority_mem _ _

/-- C5: a steer-mode enqueue on lane `key` settles exactly the then-queued
collect-mode tasks of that lane with a supersede error (in queue order),
leaves every other lane untouched, and — when the lane is executing — keeps
its current task and its queued steer/followup tasks in order, inserting the
new steer task by priority. -/
theorem C5_steer_supersede (cfg : LaneQueueConfig) (key : String) (priority : Int)
    (s : LaneQueueState)
    (hroom : ¬(cfg.maxQueueSize ≤ LaneQueue.getQueueLength key s ∧
        cfg.overflowStrategy ≠ OverflowStrategy.wait)) :
    (LaneQueue.enqueue cfg key QueueMode.steer priority s).1.settledLog =
      s.settledLog ++ ((queueOfKey key s).filter (fun t => t.mode == QueueMode.collect)).map
        (fun t => (t.id, TaskOutcome.superseded)) ∧
    (∀ k, ¬k = key →
      LaneQueue.lookupLane k (LaneQueue.enqueue cfg key QueueMode.steer priority s).1.lanes
        = LaneQueue.lookupLane k s.lanes) ∧
    (LaneQueue.isProcessing key s = true →
      LaneQueue.lookupLane key (LaneQueue.enqueue cfg key QueueMode.steer priority s).1.lanes =
        some ⟨LaneQueue.insertByPriority
            ((queueOfKey key s).filter (fun t => !(t.mode == QueueMode.collect)))
            ⟨s.taskIdCounter + 1, QueueMode.steer, priority⟩,
          true, currentTaskOfKey key s⟩) := by
  have hgc := lq_getOrCreate_lookup key s
  rw [lq_enqueue_normal cfg key QueueMode.steer priority s hroom]
  refine ⟨?_, ?_, ?_⟩
  · rw [pumpStart_log]
    cases hq : queueOfKey key s with
    | nil => simp [hq]
    | cons a b => simp [hq]
  · intro k hk
    rw [pumpStart_lookup_ne cfg key k _ hk]
    simp only []
    rw [lq_lookup_setLane_ne key k _ _ hk]
    exact lq_getOrCreate_lookup_ne key k s hk
  · intro hproc
    have hset := lq_lookup_setLane_self key
      (⟨LaneQueue.insertByPriority
          (if QueueMode.steer == QueueMode.steer && !(queueOfKey key s).isEmpty then
            (queueOfKey key s).filter (fun t => !(t.mode == QueueMode.collect))
          else queueOfKey key s)
          ⟨s.taskIdCounter + 1, QueueMode.steer, priority⟩,
        LaneQueue.isProcessing key s,
        currentTaskOfKey key s⟩ : Lane)
      (LaneQueue.getOrCreateLane key s).lanes (by rw [hgc]; rfl)
    rw [pumpStart_of_processing cfg key _ _ hset (by simpa using hproc)]
    rw [hset]
    cases hq : queueOfKey key s with
    | nil => simp [hq, hproc]
    | cons a b => simp [hq, hproc]

theorem pumpStart_lookup_none (cfg : LaneQueueConfig) (k key : String)
    (s : LaneQueueState) (h : LaneQueue.lookupLane key s.lanes = none) :
    LaneQueue.lookupLane key (LaneQueue.pumpStart cfg k s).lanes = none := by
  unfold LaneQueue.pumpStart
  cases hl : LaneQueue.lookupLane k s.lanes with
  | none => exact h
  | some lane =>
      by_cases hp : lane.processing
      · simp [hp, h]
      · simp only [hp]
        cases lane.queue with
        | nil => simpa using h
        | cons t rest =>
            by_cases hcc : s.globalConcurrency ≥ cfg.maxConcurrency
            · simp [hcc, h]
            · simp only [hcc, if_false, Bool.false_eq_true]
              exact lq_lookup_none_setLane key k _ s.lanes h

theorem foldl_pumpStart_lookup_none (cfg : LaneQueueConfig) (keys : List String)
    (key : String) (s : LaneQueueState)
    (h : LaneQueue.lookupLane key s.lanes = none) :
    LaneQueue.lookupLane key
      (keys.foldl (fun st k => LaneQueue.pumpStart cfg k st) s).lanes = none := by
  induction keys generalizing s with
  | nil => exact h
  | cons k rest ih =>
      exact ih _ (pumpStart_lookup_none cfg k key s h)

theorem tryProcess_lookup_none (cfg : LaneQueueConfig) (key : String)
    (s : LaneQueueState) (h : LaneQueue.lookupLane key s.lanes = none) :
    LaneQueue.lookupLane key (LaneQueue.tryProcessPendingLanes cfg s).lanes = none := by
  unfold LaneQueue.tryProcessPendingLanes
  by_cases hcc : s.globalConcurrency ≥ cfg.maxConcurrency
  · simp [hcc, h]
  · simp only [hcc, if_false]
    exact foldl_pumpStart_lookup_none cfg _ key s h

/-- C3 (amended): a lane is removed from the lane table only when its pump
exits: a settlement that finds the queue empty deletes the lane, while
`abort` on an existing lane merely empties its queue and leaves the lane
entry in the table (processing flag and current task unchanged). -/
theorem C3_amended :
    (∀ (cfg : LaneQueueConfig) (key : String) (outcome : TaskOutcome)
        (s : LaneQueueState) (lane : Lane) (t : QueuedTask),
      LaneQueue.lookupLane key s.lanes = some lane →
      lane.currentTask = some t → lane.queue = [] →
      LaneQueue.lookupLane key (LaneQueue.settleCurrent cfg key outcome s).lanes = none) ∧
    (∀ (key : String) (s : LaneQueueState) (lane : Lane),
      LaneQueue.lookupLane key s.lanes = some lane →
      LaneQueue.lookupLane key (LaneQueue.abort key s).1.lanes =
        some ⟨[], lane.processing, lane.currentTask⟩) := by
  constructor
  · intro cfg key outcome s lane t hl hct hq
    unfold LaneQueue.settleCurrent
    simp only [hl, hct, hq]
    apply tryProcess_lookup_none
    unfold LaneQueue.cleanupEmptyLane
    have hset := lq_lookup_setLane_self key (⟨[], false, none⟩ : Lane) s.lanes
      (by rw [hl]; rfl)
    simp only [hset]
    simp [lq_lookup_removeLane_self]
  · intro key s lane hl
    unfold LaneQueue.abort
    rw [hl]
    exact lq_lookup_setLane_self key _ s.lanes (by rw [hl]; rfl)

/-- C3 counterexample: in `c3s2` lane `"a"` is idle (blocked by the
concurrency ceiling) with one queued task; `abort "a"` empties its queue, yet
the lane stays in the lane table as an empty, non-processing entry — it is
not removed as the claim states. -/
theorem C3_counterexample :
    (LaneQueue.abort keyA c3s2).2 = 1 ∧
    LaneQueue.isProcessing keyA (LaneQueue.abort keyA c3s2).1 = false ∧
    LaneQueue.getQueueLength keyA (LaneQueue.abort keyA c3s2).1 = 0 ∧
    LaneQueue.lookupLane keyA (LaneQueue.abort keyA c3s2).1.lanes =
      some ⟨[], false, none⟩ := by
  decide

/-- Witness for C3 (amended): settling lane `"b"`'s running task in `c3s2`
removes lane `"b"`; aborting lane `"a"` leaves it present and empty. -/
theorem C3_amended_witness :
    LaneQueue.lookupLane keyB
      (LaneQueue.settleCurrent cfgC3 keyB TaskOutcome.failed c3s2).lanes = none ∧
    LaneQueue.lookupLane keyA (LaneQueue.abort keyA c3s2).1.lanes =
      some ⟨[], false, none⟩ :=
  ⟨C3_amended.1 cfgC3 keyB TaskOutcome.failed c3s2
      ⟨[], true, some ⟨1, QueueMode.collect, 0⟩⟩ ⟨1, QueueMode.collect, 0⟩
      (by decide) rfl rfl,
   by rw [C3_amended.2 keyA c3s2 ⟨[⟨2, QueueMode.collect, 0⟩], false, none⟩ (by decide)]⟩

/-- Witness for C6 at `maxQueueSize = 0`, strategy `drop`, on the empty
scheduler. -/
theorem C6_overflow_witness :
    (LaneQueue.enqueue cfgDrop keyA QueueMode.collect 0 LaneQueue.initState).2 =
      LaneQueue.EnqueueOutcome.overflow ∧
    (LaneQueue.enqueue cfgDrop keyA QueueMode.collect 0 LaneQueue.initState).1.settledLog =
      LaneQueue.initState.settledLog :=
  have h := C6_overflow cfgDrop keyA QueueMode.collect 0 LaneQueue.initState (by decide)
  ⟨(h.1 (Or.inl rfl)).1, (h.1 (Or.inl rfl)).2.2⟩

/-- Witness for C5 on a lane processing task 1 with a collect task 2 and a
followup task 3 queued: the steer enqueue supersedes exactly task 2. -/
theorem C5_steer_supersede_witness :
    (LaneQueue.enqueue cfgC3 keyA QueueMode.steer 0 c5state).1.settledLog =
      c5state.settledLog ++
        ((queueOfKey keyA c5state).filter (fun t => t.mode == QueueMode.collect)).map
          (fun t => (t.id, TaskOutcome.superseded)) ∧
    LaneQueue.lookupLane keyA
        (LaneQueue.enqueue cfgC3 keyA QueueMode.steer 0 c5state).1.lanes =
      some ⟨LaneQueue.insertByPriority
          ((queueOfKey keyA c5state).filter (fun t => !(t.mode == QueueMode.collect)))
          ⟨c5state.taskIdCounter + 1, QueueMode.steer, 0⟩,
        true, currentTaskOfKey keyA c5state⟩ :=
  have h := C5_steer_supersede cfgC3 keyA 0 c5state (by decide)
  ⟨h.1, h.2.2 (by decide)⟩

/-! ### C4: priority insertion and in-order settlement -/

theorem insertByPriority_eq_spec (q : List QueuedTask) (t : QueuedTask) :
    LaneQueue.insertByPriority q t = specInsertByPriority q t := by
  induction q with
  | nil => simp [LaneQueue.insertByPriority, specInsertByPriority]
  | cons x rest ih =>
      rw [LaneQueue.insertByPriority]
      by_cases h : t.priority > x.priority
      · have hx : x.priority < t.priority := h
        simp [specInsertByPriority, hx]
      · have hx : ¬x.priority < t.priority := h
        simp only [h, if_false]
        simp [specInsertByPriority, hx] at ih ⊢
        exact ih

theorem insertByPriority_equal_prio (q : List QueuedTask) (t : QueuedTask) (p : Int)
    (hq : ∀ x ∈ q, x.priority = p) (ht : t.priority = p) :
    LaneQueue.insertByPriority q t = q ++ [t] := by
  induction q with
  | nil => simp [LaneQueue.insertByPriority]
  | cons x rest ih =>
      rw [LaneQueue.insertByPriority]
      have hx : x.priority = p := hq x (List.mem_cons_self x rest)
      have : ¬t.priority > x.priority := by
        rw [ht, hx]
        exact lt_irrefl p
      simp only [this, if_false]
      rw [ih (fun y hy => hq y (List.mem_cons_of_mem x hy))]
      rfl

theorem mintedCollect_succ (c : Nat) (p : Int) (n : Nat) :
    mintedCollect c p (n + 1) =
      (⟨c + 1, QueueMode.collect, p⟩ : QueuedTask) :: mintedCollect (c + 1) p n := by
  unfold mintedCollect
  rw [List.range_succ_eq_map]
  simp only [List.map_cons, List.map_map]
  congr 1
  apply List.map_congr_left
  intro i _
  simp only [Function.comp_apply]
  congr 1
  omega

theorem foldl_pumpStart_log (cfg : LaneQueueConfig) (keys : List String) :
    ∀ s : LaneQueueState,
      (keys.foldl (fun st k => LaneQueue.pumpStart cfg k st) s).settledLog = s.settledLog := by
  induction keys with
  | nil => intro s; rfl
  | cons k rest ih =>
      intro s
      rw [List.foldl_cons, ih (LaneQueue.pumpStart cfg k s), pumpStart_log]

theorem cleanup_log (key : String) (s : LaneQueueState) :
    (LaneQueue.cleanupEmptyLane key s).settledLog = s.settledLog := by
  unfold LaneQueue.cleanupEmptyLane
  split
  · split <;> rfl
  · rfl

theorem tryProcess_log (cfg : LaneQueueConfig) (s : LaneQueueState) :
    (LaneQueue.tryProcessPendingLanes cfg s).settledLog = s.settledLog := by
  unfold LaneQueue.tryProcessPendingLanes
  by_cases hcc : s.globalConcurrency ≥ cfg.maxConcurrency
  · simp [hcc]
  · simp only [hcc, if_false]
    exact foldl_pumpStart_log cfg _ s

theorem runSettles_drain (cfg : LaneQueueConfig) (key : String) (q : List QueuedTask) :
    ∀ (s : LaneQueueState) (t0 : QueuedTask),
    LaneQueue.lookupLane key s.lanes = some ⟨q, true, some t0⟩ →
    (runSettles cfg key (q.length + 1) s).settledLog =
      s.settledLog ++ (t0 :: q).map (fun x => (x.id, TaskOutcome.success)) := by
  induction q with
  | nil =>
      intro s t0 hl
      show (LaneQueue.settleCurrent cfg key TaskOutcome.success s).settledLog = _
      unfold LaneQueue.settleCurrent
      simp only [hl]
      rw [tryProcess_log, cleanup_log]
      simp
  | cons next rest ih =>
      intro s t0 hl
      show (runSettles cfg key (rest.length + 1) (LaneQueue.settleCurrent cfg key TaskOutcome.success s)).settledLog = _
      have hstep : LaneQueue.settleCurrent cfg key TaskOutcome.success s =
          { s with
            lanes := LaneQueue.setLane key ⟨rest, true, some next⟩ s.lanes
            settledLog := s.settledLog ++ [(t0.id, TaskOutcome.success)] } := by
        unfold LaneQueue.settleCurrent
        simp only [hl]
      rw [hstep]
      rw [ih _ next (lq_lookup_setLane_self key _ s.lanes (by rw [hl]; rfl))]
      simp

theorem enqueueCollectN_lookup (cfg : LaneQueueConfig) (key : String) (p : Int) (n : Nat) :
    ∀ (s : LaneQueueState) (q : List QueuedTask) (t0 : QueuedTask),
    LaneQueue.lookupLane key s.lanes = some ⟨q, true, some t0⟩ →
    (∀ x ∈ q, x.priority = p) →
    q.length + n ≤ cfg.maxQueueSize →
    LaneQueue.lookupLane key (enqueueCollectN cfg key p n s).lanes =
      some ⟨q ++ mintedCollect s.taskIdCounter p n, true, some t0⟩ := by
  induction n with
  | zero =>
      intro s q t0 hl _ _
      simpa [enqueueCollectN, mintedCollect] using hl
  | succ n ih =>
      intro s q t0 hl hq hlen
      have hql : LaneQueue.getQueueLength key s = q.length := by
        unfold LaneQueue.getQueueLength
        rw [hl]
      have hroom : ¬(cfg.maxQueueSize ≤ LaneQueue.getQueueLength key s ∧
          cfg.overflowStrategy ≠ OverflowStrategy.wait) := by
        intro hcon
        rw [hql] at hcon
        omega
      have hqk : queueOfKey key s = q := by
        unfold queueOfKey
        rw [hl]
      have hik : LaneQueue.isProcessing key s = true := by
        unfold LaneQueue.isProcessing
        rw [hl]
      have hck : currentTaskOfKey key s = some t0 := by
        unfold currentTaskOfKey
        rw [hl]
      have henq := lq_enqueue_normal cfg key QueueMode.collect p s hroom
      have hlane : (⟨LaneQueue.insertByPriority
            (if QueueMode.collect == QueueMode.steer && !(queueOfKey key s).isEmpty then
              (queueOfKey key s).filter (fun t => !(t.mode == QueueMode.collect))
            else queueOfKey key s)
            ⟨s.taskIdCounter + 1, QueueMode.collect, p⟩,
          LaneQueue.isProcessing key s,
          currentTaskOfKey key s⟩ : Lane) =
          ⟨q ++ [⟨s.taskIdCounter + 1, QueueMode.collect, p⟩], true, some t0⟩ := by
      /- the steer branch is dead for collect mode -/
        rw [hqk, hik, hck]
        have hcond : (QueueMode.collect == QueueMode.steer && !q.isEmpty) = false := rfl
        rw [hcond]
        simp only [Bool.false_eq_true, if_false]
        rw [insertByPriority_equal_prio q _ p hq rfl]
      have hlog : (if QueueMode.collect == QueueMode.steer && !(queueOfKey key s).isEmpty then
            s.settledLog
              ++ ((queueOfKey key s).filter (fun t => t.mode == QueueMode.collect)).map
                  (fun t => (t.id, TaskOutcome.superseded))
          else s.settledLog) = s.settledLog := by
        rw [hqk]
        have hcond : (QueueMode.collect == QueueMode.steer && !q.isEmpty) = false := rfl
        rw [hcond]
        simp
      rw [hlane, hlog] at henq
      have hset := lq_lookup_setLane_self key
        (⟨q ++ [⟨s.taskIdCounter + 1, QueueMode.collect, p⟩], true, some t0⟩ : Lane)
        (LaneQueue.getOrCreateLane key s).lanes
        (by rw [lq_getOrCreate_lookup key s]; rfl)
      have hpump := pumpStart_of_processing cfg key
        { LaneQueue.getOrCreateLane key s with
          lanes := LaneQueue.setLane key
            ⟨q ++ [⟨s.taskIdCounter + 1, QueueMode.collect, p⟩], true, some t0⟩
            (LaneQueue.getOrCreateLane key s).lanes
          taskIdCounter := s.taskIdCounter + 1
          settledLog := s.settledLog }
        (⟨q ++ [⟨s.taskIdCounter + 1, QueueMode.collect, p⟩], true, some t0⟩ : Lane) hset rfl
      show LaneQueue.lookupLane key
          (enqueueCollectN cfg key p n (LaneQueue.enqueue cfg key QueueMode.collect p s).1).lanes = _
      rw [henq]
      simp only []
      rw [hpump]
      have ihres := ih
        { LaneQueue.getOrCreateLane key s with
          lanes := LaneQueue.setLane key
            ⟨q ++ [⟨s.taskIdCounter + 1, QueueMode.collect, p⟩], true, some t0⟩
            (LaneQueue.getOrCreateLane key s).lanes
          taskIdCounter := s.taskIdCounter + 1
          settledLog := s.settledLog }
        (q ++ [⟨s.taskIdCounter + 1, QueueMode.collect, p⟩]) t0 hset
        (by
          intro x hx
          rcases List.mem_append.mp hx with h1 | h1
          · exact hq x h1
          · simp at h1
            rw [h1])
        (by
          simp only [List.length_append, List.length_singleton]
          omega)
      rw [ihres]
      rw [mintedCollect_succ]
      simp

/-- C4: the source's `insertByPriority` inserts the new task exactly before
the first queued task of strictly smaller priority (appending when none
exists, hence FIFO among equal priorities), and consequently `n` collect-mode
tasks of one priority enqueued on a processing lane line up behind the queue
in enqueue order and settle in exactly that order. -/
theorem C4_priority_insert_and_order :
    (∀ (q : List QueuedTask) (t : QueuedTask),
      LaneQueue.insertByPriority q t = specInsertByPriority q t) ∧
    (∀ (cfg : LaneQueueConfig) (key : String) (p : Int) (n : Nat)
        (s : LaneQueueState) (q : List QueuedTask) (t0 : QueuedTask),
      LaneQueue.lookupLane key s.lanes = some ⟨q, true, some t0⟩ →
      (∀ x ∈ q, x.priority = p) →
      q.length + n ≤ cfg.maxQueueSize →
      LaneQueue.lookupLane key (enqueueCollectN cfg key p n s).lanes =
        some ⟨q ++ mintedCollect s.taskIdCounter p n, true, some t0⟩ ∧
      (runSettles cfg key ((q ++ mintedCollect s.taskIdCounter p n).length + 1)
          (enqueueCollectN cfg key p n s)).settledLog =
        (enqueueCollectN cfg key p n s).settledLog ++
          (t0 :: (q ++ mintedCollect s.taskIdCounter p n)).map
            (fun x => (x.id, TaskOutcome.success))) := by
  refine ⟨insertByPriority_eq_spec, ?_⟩
  intro cfg key p n s q t0 hl hq hlen
  have h1 := enqueueCollectN_lookup cfg key p n s q t0 hl hq hlen
  exact ⟨h1, runSettles_drain cfg key _ _ t0 h1⟩

/-- Witness for C4: two equal-priority collect tasks enqueued behind a
running task settle as 1, 2, 3 in enqueue order. -/
theorem C4_priority_insert_and_order_witness :
    LaneQueue.lookupLane keyA
        (enqueueCollectN cfgC3 keyA 0 2
          (LaneQueue.enqueue cfgC3 keyA QueueMode.collect 0 LaneQueue.initState).1).lanes =
      some ⟨mintedCollect 1 0 2, true, some ⟨1, QueueMode.collect, 0⟩⟩ ∧
    (runSettles cfgC3 keyA ((([] : List QueuedTask) ++ mintedCollect 1 0 2).length + 1)
        (enqueueCollectN cfgC3 keyA 0 2
          (LaneQueue.enqueue cfgC3 keyA QueueMode.collect 0 LaneQueue.initState).1)).settledLog =
      (enqueueCollectN cfgC3 keyA 0 2
          (LaneQueue.enqueue cfgC3 keyA QueueMode.collect 0 LaneQueue.initState).1).settledLog ++
        ((⟨1, QueueMode.collect, 0⟩ : QueuedTask) :: (([] : List QueuedTask) ++ mintedCollect 1 0 2)).map
          (fun x => (x.id, TaskOutcome.success)) :=
  have h := C4_priority_insert_and_order.2 cfgC3 keyA 0 2
    (LaneQueue.enqueue cfgC3 keyA QueueMode.collect 0 LaneQueue.initState).1
    [] ⟨1, QueueMode.collect, 0⟩ (by decide) (by simp) (by decide)
  ⟨by simpa using h.1, by simpa using h.2⟩

/-! ### Counting and membership lemmas for the concurrency invariant -/

theorem countProcessing_cons (p : String × Lane) (rest : List (String × Lane)) :
    countProcessing (p :: rest) =
      (if p.2.processing = true then 1 else 0) + countProcessing rest := by
  simp only [countProcessing, List.filter_cons]
  split <;> simp [Nat.add_comm]

theorem countProcessing_append (a b : List (String × Lane)) :
    countProcessing (a ++ b) = countProcessing a + countProcessing b := by
  simp [countProcessing, List.filter_append]

theorem lq_lookup_mem (key : String) (lanes : List (String × Lane)) (lane : Lane)
    (h : LaneQueue.lookupLane key lanes = some lane) : (key, lane) ∈ lanes := by
  induction lanes with
  | nil => simp [LaneQueue.lookupLane] at h
  | cons p rest ih =>
      rw [lq_lookup_cons] at h
      by_cases hk : p.1 = key
      · rw [if_pos hk] at h
        have hlane : p.2 = lane := by injection h
        have hp : p = (key, lane) := Prod.ext hk hlane
        rw [← hp]
        exact List.mem_cons_self p rest
      · rw [if_neg hk] at h
        exact List.mem_cons_of_mem p (ih h)

theorem lq_lookup_none_of_not_mem (key : String) (lanes : List (String × Lane))
    (h : key ∉ lanes.map Prod.fst) : LaneQueue.lookupLane key lanes = none := by
  induction lanes with
  | nil => rfl
  | cons p rest ih =>
      simp only [List.map_cons, List.mem_cons] at h
      push_neg at h
      rw [lq_lookup_cons, if_neg (fun hc => h.1 hc.symm)]
      exact ih h.2

theorem lq_not_mem_of_lookup_none (key : String) (lanes : List (String × Lane))
    (h : LaneQueue.lookupLane key lanes = none) : key ∉ lanes.map Prod.fst := by
  induction lanes with
  | nil => simp
  | cons p rest ih =>
      rw [lq_lookup_cons] at h
      by_cases hk : p.1 = key
      · rw [if_pos hk] at h
        exact absurd h (by simp)
      · rw [if_neg hk] at h
        simp only [List.map_cons, List.mem_cons]
        push_neg
        exact ⟨fun hc => hk hc.symm, ih h⟩

theorem countProcessing_setLane (key : String) (lane lane' : Lane)
    (lanes : List (String × Lane))
    (h : LaneQueue.lookupLane key lanes = some lane)
    (hnd : (lanes.map Prod.fst).Nodup) :
    countProcessing (LaneQueue.setLane key lane' lanes) +
        (if lane.processing = true then 1 else 0) =
      countProcessing lanes + (if lane'.processing = true then 1 else 0) := by
  induction lanes with
  | nil => simp [LaneQueue.lookupLane] at h
  | cons p rest ih =>
      rw [lq_lookup_cons] at h
      rw [lq_setLane_cons]
      simp only [List.map_cons, List.nodup_cons] at hnd
      by_cases hk : p.1 = key
      · rw [if_pos hk] at h ⊢
        have hlane : lane = p.2 := by injection h with h2; exact h2.symm
        have hrest : LaneQueue.lookupLane key rest = none := by
          apply lq_lookup_none_of_not_mem
          rw [← hk]
          exact hnd.1
        rw [lq_setLane_of_none key lane' rest hrest]
        rw [countProcessing_cons, countProcessing_cons, hlane]
        simp only []
        omega
      · rw [if_neg hk] at h
        rw [if_neg hk]
        rw [countProcessing_cons, countProcessing_cons]
        have := ih h hnd.2
        omega

theorem lq_removeLane_of_none (key : String) (lanes : List (String × Lane))
    (h : LaneQueue.lookupLane key lanes = none) :
    LaneQueue.removeLane key lanes = lanes := by
  induction lanes with
  | nil => rfl
  | cons p rest ih =>
      rw [lq_lookup_cons] at h
      rw [lq_removeLane_cons]
      by_cases hk : p.1 = key
      · rw [if_pos hk] at h
        exact absurd h (by simp)
      · rw [if_neg hk] at h
        rw [if_neg hk, ih h]

theorem countProcessing_removeLane (key : String) (lanes : List (String × Lane))
    (lane : Lane) (h : LaneQueue.lookupLane key lanes = some lane)
    (hnd : (lanes.map Prod.fst).Nodup) :
    countProcessing (LaneQueue.removeLane key lanes) +
        (if lane.processing = true then 1 else 0) = countProcessing lanes := by
  induction lanes with
  | nil => simp [LaneQueue.lookupLane] at h
  | cons p rest ih =>
      rw [lq_lookup_cons] at h
      rw [lq_removeLane_cons]
      simp only [List.map_cons, List.nodup_cons] at hnd
      by_cases hk : p.1 = key
      · rw [if_pos hk] at h ⊢
        have hlane : lane = p.2 := by injection h with h2; exact h2.symm
        have hrest : LaneQueue.lookupLane key rest = none := by
          apply lq_lookup_none_of_not_mem
          rw [← hk]
          exact hnd.1
        rw [lq_removeLane_of_none key rest hrest, countProcessing_cons, hlane]
        omega
      · rw [if_neg hk] at h
        rw [if_neg hk, countProcessing_cons, countProcessing_cons]
        have := ih h hnd.2
        omega

theorem lq_setLane_keys (key : String) (lane : Lane) (lanes : List (String × Lane)) :
    (LaneQueue.setLane key lane lanes).map Prod.fst = lanes.map Prod.fst := by
  induction lanes with
  | nil => rfl
  | cons p rest ih =>
      rw [lq_setLane_cons]
      simp only [List.map_cons]
      rw [ih]
      by_cases hk : p.1 = key
      · rw [if_pos hk]
      · rw [if_neg hk]

theorem lq_removeLane_keys_sublist (key : String) (lanes : List (String × Lane)) :
    List.Sublist ((LaneQueue.removeLane key lanes).map Prod.fst) (lanes.map Prod.fst) := by
  induction lanes with
  | nil => simp [LaneQueue.removeLane]
  | cons p rest ih =>
      rw [lq_removeLane_cons]
      by_cases hk : p.1 = key
      · rw [if_pos hk]
        simp only [List.map_cons]
        exact ih.cons _
      · rw [if_neg hk]
        simp only [List.map_cons]
        exact ih.cons₂ _

theorem lq_mem_setLane (key : String) (lane' : Lane) (lanes : List (String × Lane))
    (p : String × Lane) (h : p ∈ LaneQueue.setLane key lane' lanes) :
    p.2 = lane' ∨ p ∈ lanes := by
  unfold LaneQueue.setLane at h
  rcases List.mem_map.mp h with ⟨q, hq, hfq⟩
  by_cases hk : q.1 = key
  · rw [if_pos hk] at hfq
    left
    rw [← hfq]
  · rw [if_neg hk] at hfq
    right
    rw [← hfq]
    exact hq

theorem lq_mem_removeLane (key : String) (lanes : List (String × Lane))
    (p : String × Lane) (h : p ∈ LaneQueue.removeLane key lanes) : p ∈ lanes := by
  induction lanes with
  | nil => simp [LaneQueue.removeLane] at h
  | cons q rest ih =>
      rw [lq_removeLane_cons] at h
      by_cases hk : q.1 = key
      · rw [if_pos hk] at h
        exact List.mem_cons_of_mem q (ih h)
      · rw [if_neg hk] at h
        rcases List.mem_cons.mp h with h1 | h1
        · rw [h1]; exact List.mem_cons_self q rest
        · exact List.mem_cons_of_mem q (ih h1)

/-! ### Preservation of the scheduler invariant -/

theorem schedInv_congr (cfg : LaneQueueConfig) (s s' : LaneQueueState)
    (hlanes : s'.lanes = s.lanes) (hcnt : s'.globalConcurrency = s.globalConcurrency)
    (h : schedInv cfg s) : schedInv cfg s' := by
  unfold schedInv at h ⊢
  rw [hlanes, hcnt]
  exact h

theorem schedInv_setLane (cfg : LaneQueueConfig) (s : LaneQueueState) (key : String)
    (lane lane' : Lane) (hinv : schedInv cfg s)
    (hl : LaneQueue.lookupLane key s.lanes = some lane)
    (hproc : lane'.processing = lane.processing) (hwf : laneWF (key, lane')) :
    schedInv cfg { s with lanes := LaneQueue.setLane key lane' s.lanes } := by
  obtain ⟨h1, h2, h3, h4⟩ := hinv
  refine ⟨?_, h2, ?_, ?_⟩
  · have hcnt := countProcessing_setLane key lane lane' s.lanes hl h3
    rw [hproc] at hcnt
    simp only []
    omega
  · simp only []
    rw [lq_setLane_keys]
    exact h3
  · intro p hp
    rcases lq_mem_setLane key lane' s.lanes p hp with h | h
    · unfold laneWF at hwf ⊢
      rw [h]
      exact hwf
    · exact h4 p h

theorem pumpStart_inv (cfg : LaneQueueConfig) (key : String) (s : LaneQueueState)
    (h : schedInv cfg s) : schedInv cfg (LaneQueue.pumpStart cfg key s) := by
  obtain ⟨h1, h2, h3, h4⟩ := h
  unfold LaneQueue.pumpStart
  cases hl : LaneQueue.lookupLane key s.lanes with
  | none => exact ⟨h1, h2, h3, h4⟩
  | some lane =>
      by_cases hp : lane.processing
      · simp only [hp, if_true]
        exact ⟨h1, h2, h3, h4⟩
      · simp only [hp, Bool.false_eq_true, if_false]
        cases hq : lane.queue with
        | nil => exact ⟨h1, h2, h3, h4⟩
        | cons t rest =>
            by_cases hc : s.globalConcurrency ≥ cfg.maxConcurrency
            · simp only [hc, if_true]
              exact ⟨h1, h2, h3, h4⟩
            · simp only [hc, if_false]
              have hcnt := countProcessing_setLane key lane
                ⟨rest, true, some t⟩ s.lanes hl h3
              rw [Bool.not_eq_true] at hp
              refine ⟨?_, ?_, ?_, ?_⟩
              · simp only []
                rw [hp] at hcnt
                simp at hcnt
                omega
              · simp only []
                omega
              · simp only []
                rw [lq_setLane_keys]
                exact h3
              · intro p hp2
                rcases lq_mem_setLane key _ s.lanes p hp2 with h | h
                · unfold laneWF
                  rw [h]
                  intro _
                  rfl
                · exact h4 p h

theorem foldl_pumpStart_inv (cfg : LaneQueueConfig) (keys : List String) :
    ∀ s : LaneQueueState, schedInv cfg s →
      schedInv cfg (keys.foldl (fun st k => LaneQueue.pumpStart cfg k st) s) := by
  induction keys with
  | nil => intro s h; exact h
  | cons k rest ih =>
      intro s h
      rw [List.foldl_cons]
      exact ih _ (pumpStart_inv cfg k s h)

theorem tryProcess_inv (cfg : LaneQueueConfig) (s : LaneQueueState)
    (h : schedInv cfg s) : schedInv cfg (LaneQueue.tryProcessPendingLanes cfg s) := by
  unfold LaneQueue.tryProcessPendingLanes
  by_cases hc : s.globalConcurrency ≥ cfg.maxConcurrency
  · simp only [hc, if_true]
    exact h
  · simp only [hc, if_false]
    exact foldl_pumpStart_inv cfg _ s h

theorem cleanup_inv (cfg : LaneQueueConfig) (key : String) (s : LaneQueueState)
    (h : schedInv cfg s) : schedInv cfg (LaneQueue.cleanupEmptyLane key s) := by
  obtain ⟨h1, h2, h3, h4⟩ := h
  unfold LaneQueue.cleanupEmptyLane
  cases hl : LaneQueue.lookupLane key s.lanes with
  | none => exact ⟨h1, h2, h3, h4⟩
  | some lane =>
      by_cases hcond : lane.queue.isEmpty && !lane.processing
      · simp only [hcond, if_true]
        have hnp : lane.processing = false := by
          rcases Bool.and_eq_true_iff.mp hcond with ⟨_, hnp⟩
          simpa using hnp
        have hcnt := countProcessing_removeLane key s.lanes lane hl h3
        rw [hnp] at hcnt
        refine ⟨?_, h2, ?_, ?_⟩
        · simp at hcnt
          simp only []
          omega
        · simp only []
          exact (lq_removeLane_keys_sublist key s.lanes).nodup h3
        · intro p hp
          exact h4 p (lq_mem_removeLane key s.lanes p hp)
      · simp only [hcond, Bool.false_eq_true, if_false]
        exact ⟨h1, h2, h3, h4⟩

theorem getOrCreate_inv (cfg : LaneQueueConfig) (key : String) (s : LaneQueueState)
    (h : schedInv cfg s) : schedInv cfg (LaneQueue.getOrCreateLane key s) := by
  obtain ⟨h1, h2, h3, h4⟩ := h
  unfold LaneQueue.getOrCreateLane
  cases hl : LaneQueue.lookupLane key s.lanes with
  | some lane => exact ⟨h1, h2, h3, h4⟩
  | none =>
      refine ⟨?_, h2, ?_, ?_⟩
      · simp only []
        rw [countProcessing_append]
        simp [countProcessing, LaneQueue.emptyLane, h1]
      · simp only [List.map_append]
        rw [List.nodup_append]
        refine ⟨h3, by simp, ?_⟩
        intro a ha hb
        simp only [List.map_cons, List.map_nil, List.mem_singleton] at hb
        rw [hb] at ha
        exact lq_not_mem_of_lookup_none key s.lanes hl ha
      · intro p hp
        rcases List.mem_append.mp hp with hmem | hmem
        · exact h4 p hmem
        · simp only [List.mem_singleton] at hmem
          rw [hmem]
          unfold laneWF LaneQueue.emptyLane
          intro habs
          simp at habs

theorem settle_inv (cfg : LaneQueueConfig) (key : String) (outcome : TaskOutcome)
    (s : LaneQueueState) (h : schedInv cfg s) :
    schedInv cfg (LaneQueue.settleCurrent cfg key outcome s) := by
  cases hl : LaneQueue.lookupLane key s.lanes with
  | none =>
      unfold LaneQueue.settleCurrent
      simp only [hl]
      exact h
  | some lane =>
      cases hct : lane.currentTask with
      | none =>
          unfold LaneQueue.settleCurrent
          simp only [hl, hct]
          exact h
      | some t =>
          have hproc : lane.processing = true :=
            h.2.2.2 (key, lane) (lq_lookup_mem key s.lanes lane hl) (by rw [hct]; rfl)
          cases hq : lane.queue with
          | cons next rest =>
              have hsettle : LaneQueue.settleCurrent cfg key outcome s =
                  { s with
                    lanes := LaneQueue.setLane key
                      ⟨rest, lane.processing, some next⟩ s.lanes
                    settledLog := s.settledLog ++ [(t.id, outcome)] } := by
                unfold LaneQueue.settleCurrent
                simp only [hl, hct, hq]
              rw [hsettle]
              exact schedInv_congr cfg _ _ rfl rfl
                (schedInv_setLane cfg s key lane ⟨rest, lane.processing, some next⟩
                  h hl rfl (fun _ => hproc))
          | nil =>
              have hsettle : LaneQueue.settleCurrent cfg key outcome s =
                  LaneQueue.tryProcessPendingLanes cfg (LaneQueue.cleanupEmptyLane key
                    { s with
                      lanes := LaneQueue.setLane key ⟨[], false, none⟩ s.lanes
                      globalConcurrency := s.globalConcurrency - 1
                      settledLog := s.settledLog ++ [(t.id, outcome)] }) := by
                unfold LaneQueue.settleCurrent
                simp only [hl, hct, hq]
              rw [hsettle]
              apply tryProcess_inv
              apply cleanup_inv
              obtain ⟨h1, h2, h3, h4⟩ := h
              have hcnt := countProcessing_setLane key lane ⟨[], false, none⟩ s.lanes hl h3
              rw [hproc] at hcnt
              simp at hcnt
              refine ⟨?_, ?_, ?_, ?_⟩
              · simp only []
                omega
              · simp only []
                omega
              · simp only []
                rw [lq_setLane_keys]
                exact h3
              · intro p hp
                rcases lq_mem_setLane key _ s.lanes p hp with hh | hh
                · unfold laneWF
                  rw [hh]
                  intro habs
                  simp at habs
                · exact h4 p hh

theorem enqueue_inv (cfg : LaneQueueConfig) (key : String) (mode : QueueMode)
    (priority : Int) (s : LaneQueueState) (h : schedInv cfg s) :
    schedInv cfg (LaneQueue.enqueue cfg key mode priority s).1 := by
  have hg := getOrCreate_inv cfg key s h
  have hwfG : laneWF (key, (LaneQueue.lookupLane key s.lanes).getD LaneQueue.emptyLane) := by
    cases hl : LaneQueue.lookupLane key s.lanes with
    | none =>
        unfold laneWF LaneQueue.emptyLane
        intro habs
        simp at habs
    | some l =>
        have := h.2.2.2 (key, l) (lq_lookup_mem key s.lanes l hl)
        simpa using this
  unfold LaneQueue.enqueue
  simp only [lq_getOrCreate_lookup]
  split
  · exact hg
  · apply pumpStart_inv
    apply schedInv_congr cfg
      { LaneQueue.getOrCreateLane key s with
        lanes := LaneQueue.setLane key
          ⟨LaneQueue.insertByPriority
            (if mode == QueueMode.steer
                && !((LaneQueue.lookupLane key s.lanes).getD LaneQueue.emptyLane).queue.isEmpty then
              ((LaneQueue.lookupLane key s.lanes).getD LaneQueue.emptyLane).queue.filter
                (fun t => !(t.mode == QueueMode.collect))
            else ((LaneQueue.lookupLane key s.lanes).getD LaneQueue.emptyLane).queue)
            ⟨(LaneQueue.getOrCreateLane key s).taskIdCounter + 1, mode, priority⟩,
            ((LaneQueue.lookupLane key s.lanes).getD LaneQueue.emptyLane).processing,
            ((LaneQueue.lookupLane key s.lanes).getD LaneQueue.emptyLane).currentTask⟩
          (LaneQueue.getOrCreateLane key s).lanes } _ rfl rfl
    exact schedInv_setLane cfg (LaneQueue.getOrCreateLane key s) key
      ((LaneQueue.lookupLane key s.lanes).getD LaneQueue.emptyLane) _
      hg (lq_getOrCreate_lookup key s) rfl (fun hx => hwfG hx)

theorem abort_inv (cfg : LaneQueueConfig) (key : String) (s : LaneQueueState)
    (h : schedInv cfg s) : schedInv cfg (LaneQueue.abort key s).1 := by
  unfold LaneQueue.abort
  cases hl : LaneQueue.lookupLane key s.lanes with
  | none => exact h
  | some lane =>
      exact schedInv_congr cfg _ _ rfl rfl
        (schedInv_setLane cfg s key lane ⟨[], lane.processing, lane.currentTask⟩ h hl rfl
          (fun hx => h.2.2.2 (key, lane) (lq_lookup_mem key s.lanes lane hl) hx))

theorem clear_inv (cfg : LaneQueueConfig) (key? : Option String) (s : LaneQueueState)
    (h : schedInv cfg s) : schedInv cfg (LaneQueue.clear key? s) := by
  cases key? with
  | some key =>
      cases hl : LaneQueue.lookupLane key s.lanes with
      | some lane =>
          have hclear : LaneQueue.clear (some key) s =
              { s with
                lanes := LaneQueue.setLane key
                  ⟨[], lane.processing, lane.currentTask⟩ s.lanes
                settledLog := s.settledLog
                  ++ lane.queue.map (fun t => (t.id, TaskOutcome.cleared)) } := by
            unfold LaneQueue.clear
            simp only [hl]
          rw [hclear]
          exact schedInv_congr cfg _ _ rfl rfl
            (schedInv_setLane cfg s key lane ⟨[], lane.processing, lane.currentTask⟩ h hl rfl
              (fun hx => h.2.2.2 (key, lane) (lq_lookup_mem key s.lanes lane hl) hx))
      | none =>
          have hclear : LaneQueue.clear (some key) s = s := by
            unfold LaneQueue.clear
            simp only [hl]
          rw [hclear]
          exact h
  | none =>
      unfold LaneQueue.clear
      obtain ⟨h1, h2, h3, h4⟩ := h
      have hcount : ∀ L : List (String × Lane),
          countProcessing (L.map
            (fun p => (p.1, (⟨[], p.2.processing, p.2.currentTask⟩ : Lane)))) =
            countProcessing L := by
        intro L
        induction L with
        | nil => rfl
        | cons q rest ih =>
            rw [List.map_cons, countProcessing_cons, countProcessing_cons, ih]
      refine ⟨?_, h2, ?_, ?_⟩
      · simp only []
        rw [hcount]
        exact h1
      · simp only [List.map_map]
        exact h3
      · intro p hp
        rcases List.mem_map.mp hp with ⟨q, hq, hfq⟩
        unfold laneWF
        rw [← hfq]
        intro hx
        exact h4 q hq hx

theorem schedInv_init (cfg : LaneQueueConfig) : schedInv cfg LaneQueue.initState := by
  refine ⟨rfl, Nat.zero_le _, ?_, ?_⟩
  · simp [LaneQueue.initState]
  · intro p hp
    simp [LaneQueue.initState] at hp

theorem schedInv_reachable (cfg : LaneQueueConfig) (s : LaneQueueState)
    (h : LaneQueue.Reachable cfg s) : schedInv cfg s := by
  induction h with
  | init => exact schedInv_init cfg
  | step hr hs ih =>
      cases hs with
      | enq key mode priority s => exact enqueue_inv cfg key mode priority _ ih
      | settle key outcome s => exact settle_inv cfg key outcome _ ih
      | doAbort key s => exact abort_inv cfg key _ ih
      | doClear key? s => exact clear_inv cfg key? _ ih

/-- C7: in every reachable scheduler state the global concurrency counter
equals the number of lanes with `processing = true` and satisfies
`0 ≤ counter ≤ maxConcurrency` (the lower bound holds by the counter being a
natural number); moreover every pump exit — whatever the task's outcome,
success or failure — runs the `finally` block, which decrements the counter
(by exactly one, the counter being at least 1) before cleanup and re-pumping
of pending lanes. -/
theorem C7_counter_invariant (cfg : LaneQueueConfig) (s : LaneQueueState)
    (h : LaneQueue.Reachable cfg s) :
    s.globalConcurrency = countProcessing s.lanes ∧
    s.globalConcurrency ≤ cfg.maxConcurrency ∧
    (∀ (key : String) (outcome : TaskOutcome) (lane : Lane) (t : QueuedTask),
      LaneQueue.lookupLane key s.lanes = some lane →
      lane.currentTask = some t → lane.queue = [] →
      1 ≤ s.globalConcurrency ∧
      LaneQueue.settleCurrent cfg key outcome s =
        LaneQueue.tryProcessPendingLanes cfg (LaneQueue.cleanupEmptyLane key
          { s with
            lanes := LaneQueue.setLane key ⟨[], false, none⟩ s.lanes
            globalConcurrency := s.globalConcurrency - 1
            settledLog := s.settledLog ++ [(t.id, outcome)] })) := by
  have hinv := schedInv_reachable cfg s h
  refine ⟨hinv.1, hinv.2.1, ?_⟩
  intro key outcome lane t hl hct hq
  constructor
  · have hproc : lane.processing = true :=
      hinv.2.2.2 (key, lane) (lq_lookup_mem key s.lanes lane hl) (by rw [hct]; rfl)
    have hmem : (key, lane) ∈ s.lanes.filter (fun p => p.2.processing) :=
      List.mem_filter.mpr ⟨lq_lookup_mem key s.lanes lane hl, hproc⟩
    have hpos : 0 < countProcessing s.lanes := List.length_pos_of_mem hmem
    rw [hinv.1]
    exact hpos
  · unfold LaneQueue.settleCurrent
    simp only [hl, hct, hq]

/-- Witness for C7 at the concrete reachable state `c3s2` (two enqueues from
the initial state under `maxConcurrency = 1`). -/
theorem C7_counter_invariant_witness :
    c3s2.globalConcurrency = countProcessing c3s2.lanes ∧
    c3s2.globalConcurrency ≤ cfgC3.maxConcurrency ∧
    (∀ (key : String) (outcome : TaskOutcome) (lane : Lane) (t : QueuedTask),
      LaneQueue.lookupLane key c3s2.lanes = some lane →
      lane.currentTask = some t → lane.queue = [] →
      1 ≤ c3s2.globalConcurrency ∧
      LaneQueue.settleCurrent cfgC3 key outcome c3s2 =
        LaneQueue.tryProcessPendingLanes cfgC3 (LaneQueue.cleanupEmptyLane key
          { c3s2 with
            lanes := LaneQueue.setLane key ⟨[], false, none⟩ c3s2.lanes
            globalConcurrency := c3s2.globalConcurrency - 1
            settledLog := c3s2.settledLog ++ [(t.id, outcome)] })) :=
  C7_counter_invariant cfgC3 c3s2
    (LaneQueue.Reachable.step
      (LaneQueue.Reachable.step LaneQueue.Reachable.init
        (LaneQueue.Step.enq keyB QueueMode.collect 0 LaneQueue.initState))
      (LaneQueue.Step.enq keyA QueueMode.collect 0
        (LaneQueue.enqueue cfgC3 keyB QueueMode.collect 0 LaneQueue.initState).1))

/-! ### C1: pagination machinery -/

theorem totalElemSize_foldl (l : List CardElem) :
    ∀ a : Nat, l.foldl (fun n e => n + estimateElementSize e) a = a + totalElemSize l := by
  induction l with
  | nil => intro a; simp [totalElemSize]
  | cons e rest ih =>
      intro a
      rw [List.foldl_cons, ih]
      have hcons : totalElemSize (e :: rest) =
          (0 + estimateElementSize e) + totalElemSize rest := by
        unfold totalElemSize
        rw [List.foldl_cons, ih]
        rfl
      rw [hcons]
      omega

theorem totalElemSize_concat (l : List CardElem) (e : CardElem) :
    totalElemSize (l ++ [e]) = totalElemSize l + estimateElementSize e := by
  unfold totalElemSize
  rw [List.foldl_append, totalElemSize_foldl, totalElemSize_foldl]
  simp [totalElemSize]

theorem totalElemSize_singleton (e : CardElem) :
    totalElemSize [e] = estimateElementSize e := by
  unfold totalElemSize
  simp

theorem mkCardV2_nonfinal (title? : Option String) (isC : Bool) (idx : Nat)
    (el : List CardElem) :
    mkCardV2 title? isC idx el false =
      ⟨(if idx > 0 then (title?.getD processingTitle) ++ pageMarker idx
        else (title?.getD processingTitle)), wathetStr, el⟩ := by
  unfold mkCardV2 pageMarker
  simp only [Bool.false_and, Bool.false_eq_true, if_false]
  by_cases h : idx > 0
  · simp [h, String.append_assoc]
  · simp [h]

theorem mkCardV2_final (title? : Option String) (isC : Bool) (idx : Nat)
    (el : List CardElem) :
    mkCardV2 title? isC idx el true =
      ⟨(if idx > 0 then
          (title?.getD (if isC then doneTitle else processingTitle)) ++ pageMarker idx
        else title?.getD (if isC then doneTitle else processingTitle)),
        (if isC then greenStr else wathetStr), el⟩ := by
  unfold mkCardV2 pageMarker
  simp only [Bool.true_and]
  cases isC <;> by_cases h : idx > 0 <;> simp [h, String.append_assoc]

theorem addElement_inv (title? : Option String) (isC : Bool) (st : BuildState)
    (e : CardElem) (h : buildInv title? st) :
    buildInv title? (addElement title? isC st e) := by
  obtain ⟨h1, h2, h3, h4⟩ := h
  unfold addElement
  by_cases hcond :
      (decide (st.currentSize + estimateElementSize e > MAX_CARD_SIZE)
        && !st.currentElements.isEmpty) = true
  · simp only [hcond, if_true]
    simp only [Bool.and_eq_true, decide_eq_true_eq, Bool.not_eq_true',
      List.isEmpty_eq_false] at hcond
    obtain ⟨hbig, hne⟩ := hcond
    unfold flushCard
    rw [if_neg (by simpa using hne)]
    refine ⟨?_, ?_, ?_, ?_⟩
    · simp [h1]
    · simp [totalElemSize_singleton]
    · right
      simp
    · intro i card hget
      simp only [] at hget
      by_cases hi : i < st.cards.length
      · rw [List.getElem?_append, if_pos hi] at hget
        exact h4 i card hget
      · by_cases hieq : i = st.cards.length
        · subst hieq
          rw [List.getElem?_concat_length] at hget
          injection hget with hcard
          rw [← hcard, mkCardV2_nonfinal]
          constructor
          · simp [h1]
          · have hsz : totalElemSize st.currentElements ≤ MAX_CARD_SIZE ∨
                st.currentElements.length = 1 := by
              rcases h3 with h3 | h3
              · left
                rw [← h2]
                exact h3
              · right
                have : 1 ≤ st.currentElements.length := by
                  cases hce : st.currentElements with
                  | nil => exact absurd hce hne
                  | cons a b => simp
                omega
            exact hsz
        · have : st.cards.length + 1 ≤ i := by omega
          rw [List.getElem?_eq_none (by simpa using this)] at hget
          exact absurd hget (by simp)
  · simp only [hcond, Bool.false_eq_true, if_false]
    refine ⟨h1, ?_, ?_, h4⟩
    · simp only []
      rw [totalElemSize_concat, h2]
    · by_cases hce : st.currentElements = []
      · right
        simp [hce]
      · left
        have hle : st.currentSize + estimateElementSize e ≤ MAX_CARD_SIZE := by
          by_contra hgt
          push_neg at hgt
          exact hcond (by simp [hgt, hce])
        simp only []
        omega

theorem foldl_toolPanel_inv (cwd : String) (title? : Option String) (isC : Bool)
    (parts : List OrderedPart) :
    ∀ st, buildInv title? st →
      buildInv title? (parts.foldl
        (fun s tool =>
          match renderToolPanel cwd tool with
          | some e => addElement title? isC s e
          | none => s) st) := by
  induction parts with
  | nil => intro st h; exact h
  | cons p rest ih =>
      intro st h
      rw [List.foldl_cons]
      refine ih _ ?_
      cases hr : renderToolPanel cwd p with
      | some e =>
          simp only [hr]
          exact addElement_inv title? isC st e h
      | none =>
          simp only [hr]
          exact h

theorem processGroup_inv (cwd : String) (title? : Option String) (isC multi : Bool)
    (st : BuildState) (g : PartGroup) (h : buildInv title? st) :
    buildInv title? (processGroup cwd title? isC multi st g) := by
  unfold processGroup
  cases htype : g.type with
  | reasoning =>
      simp only [htype]
      by_cases hte : (g.parts.filterMap nonEmptyText).isEmpty
      · simp only [hte, if_true]
        exact h
      · simp only [hte, Bool.false_eq_true, if_false]
        exact addElement_inv title? isC _ _ h
  | toolCall =>
      simp only [htype]
      exact foldl_toolPanel_inv cwd title? isC g.parts st h
  | text =>
      simp only [htype]
      by_cases hte : (g.parts.filterMap nonEmptyText).isEmpty
      · simp only [hte, if_true]
        exact h
      · simp only [hte, Bool.false_eq_true, if_false]
        by_cases hce : st.currentElements.isEmpty
        · simp only [hce, if_true]
          exact addElement_inv title? isC st _ h
        · simp only [hce, Bool.false_eq_true, if_false]
          exact addElement_inv title? isC _ _ (addElement_inv title? isC st _ h)

theorem foldl_processGroup_inv (cwd : String) (title? : Option String)
    (isC multi : Bool) (gs : List PartGroup) :
    ∀ st, buildInv title? st →
      buildInv title? (gs.foldl (processGroup cwd title? isC multi) st) := by
  induction gs with
  | nil => intro st h; exact h
  | cons g rest ih =>
      intro st h
      rw [List.foldl_cons]
      exact ih _ (processGroup_inv cwd title? isC multi st g h)

theorem buildInv_init (title? : Option String) : buildInv title? initBuildState := by
  refine ⟨rfl, rfl, Or.inl (Nat.zero_le _), ?_⟩
  intro i card hc
  simp [initBuildState] at hc

/-- C1 (amended): every render call emits at least one artifact; the `i`-th
of `n` artifacts carries the title base (status- or caller-derived) with the
page marker ` (续i)` exactly when `i > 0` — so every artifact after the
first, non-final or final, carries a distinct increasing page marker while
the first never does — and every artifact's elements fit in `MAX_CARD_SIZE`
unless the artifact consists of a single (oversized) element. -/
theorem C1_pagination (cwd : String) (parts : List OrderedPart) (isComplete : Bool)
    (title? : Option String) :
    1 ≤ (buildStreamingCardsV2 cwd parts isComplete title?).cards.length ∧
    (∀ i card, (buildStreamingCardsV2 cwd parts isComplete title?).cards[i]? = some card →
      card.title = expectedCardTitle title? isComplete
        (buildStreamingCardsV2 cwd parts isComplete title?).cards.length i ∧
      (totalElemSize card.elements ≤ MAX_CARD_SIZE ∨ card.elements.length = 1)) := by
  have hb : ∃ st : BuildState, buildInv title? st ∧
      buildStreamingCardsV2 cwd parts isComplete title? =
        ⟨st.cards ++ [mkCardV2 title? isComplete st.cardIndex
          (if st.currentElements.isEmpty then
            [CardElem.markdown (if isComplete then noContentStr else dotsStr)]
          else st.currentElements) true], false⟩ := by
    refine ⟨(groupConsecutiveParts parts).foldl
        (processGroup cwd title? isComplete
          (decide ((List.filter (fun g => g.type == PartType.reasoning)
            (groupConsecutiveParts parts)).length > 1))) initBuildState, ?_, rfl⟩
    exact foldl_processGroup_inv cwd title? isComplete _ _ initBuildState
      (buildInv_init title?)
  obtain ⟨st, hinv, hbeq⟩ := hb
  obtain ⟨h1, h2, h3, h4⟩ := hinv
  rw [hbeq]
  constructor
  · simp
  · intro i card hget
    simp only [] at hget
    have hlen : (st.cards ++ [mkCardV2 title? isComplete st.cardIndex
        (if st.currentElements.isEmpty then
          [CardElem.markdown (if isComplete then noContentStr else dotsStr)]
        else st.currentElements) true]).length = st.cards.length + 1 := by
      simp
    by_cases hi : i < st.cards.length
    · rw [List.getElem?_append, if_pos hi] at hget
      obtain ⟨ht, hs⟩ := h4 i card hget
      refine ⟨?_, hs⟩
      rw [ht, hlen]
      unfold expectedCardTitle
      have hne : ¬(i + 1 = st.cards.length + 1) := by omega
      rw [if_neg hne]
    · by_cases hieq : i = st.cards.length
      · subst hieq
        rw [List.getElem?_concat_length] at hget
        injection hget with hcard
        rw [hlen, ← hcard, mkCardV2_final]
        constructor
        · unfold expectedCardTitle
          rw [if_pos rfl, h1]
        · by_cases hce : st.currentElements.isEmpty
          · simp only [hce, if_true]
            right
            simp
          · simp only [hce, Bool.false_eq_true, if_false]
            rcases h3 with h3 | h3
            · left
              rw [← h2]
              exact h3
            · right
              have hpos : 1 ≤ st.currentElements.length := by
                cases hcel : st.currentElements with
                | nil => rw [hcel] at hce; exact absurd rfl hce
                | cons a b => simp
              omega
      · have hgt : st.cards.length + 1 ≤ i := by omega
        rw [List.getElem?_eq_none (by simpa using hgt)] at hget
        exact absurd hget (by simp)

set_option maxRecDepth 100000 in
/-- C1 counterexample: 60 tool-call panels overflow `MAX_CARD_SIZE` and the
render emits two artifacts, but the non-final (sealed) first artifact's title
is the bare status title with no page marker — the ` (续i)` marker goes on
every artifact after the first (including the final one), refuting "every
non-final artifact's title carries a distinct, increasing page marker". -/
theorem C1_counterexample :
    ((buildStreamingCardsV2 cwdW cexC1Parts true none).cards.map CardV2.title) =
      [processingTitle, doneTitle ++ pageMarker 1] ∧
    strContainsB processingTitle contMarkerPre = false :=
  ⟨by decide, by decide⟩

set_option maxRecDepth 100000 in
/-- Witness for C1 (amended) at the concrete overflowing input: the second
artifact exists, carries the page marker of index 1, and observes the size
bound disjunction. -/
theorem C1_pagination_witness :
    1 ≤ (buildStreamingCardsV2 cwdW cexC1Parts true none).cards.length ∧
    ∃ card, (buildStreamingCardsV2 cwdW cexC1Parts true none).cards[1]? = some card ∧
      card.title = expectedCardTitle none true
        (buildStreamingCardsV2 cwdW cexC1Parts true none).cards.length 1 ∧
      (totalElemSize card.elements ≤ MAX_CARD_SIZE ∨ card.elements.length = 1) := by
  have h := C1_pagination cwdW cexC1Parts true none
  refine ⟨h.1, ?_⟩
  obtain ⟨card, hcard⟩ := Option.isSome_iff_exists.mp
    (by decide : ((buildStreamingCardsV2 cwdW cexC1Parts true none).cards[1]?).isSome = true)
  exact ⟨card, hcard, (h.2 1 card hcard).1, (h.2 1 card hcard).2⟩

/-! ### C9: the escape scan never leaves a fence at a line start -/

theorem strHasPrefixB_iff (p l : List Char) :
    strHasPrefixB p l = true ↔ p <+: l := by
  induction p generalizing l with
  | nil => simp [strHasPrefixB]
  | cons x p' ih =>
      cases l with
      | nil => simp [strHasPrefixB]
      | cons c l' =>
          rw [strHasPrefixB]
          simp only [Bool.and_eq_true, beq_iff_eq]
          constructor
          · rintro ⟨hx, hp⟩
            subst hx
            rcases (ih l').mp hp with ⟨t, ht⟩
            exact ⟨t, by rw [List.cons_append, ht]⟩
          · rintro ⟨t, ht⟩
            rw [List.cons_append] at ht
            injection ht with h1 h2
            exact ⟨h1, (ih l').mpr ⟨t, h2⟩⟩

theorem append_split_notmem {α : Type} (x : α) (p : List α) :
    ∀ (q a b : List α), x ∉ p → p ++ q = a ++ x :: b →
      ∃ a', a = p ++ a' ∧ q = a' ++ x :: b := by
  induction p with
  | nil =>
      intro q a b _ h
      exact ⟨a, by simp, by simpa using h⟩
  | cons y p' ih =>
      intro q a b hx h
      cases a with
      | nil =>
          simp only [List.cons_append, List.nil_append] at h
          injection h with h1 _
          exact absurd (List.mem_cons_self y p') (by rw [h1]; simpa [h1] using hx)
      | cons z a' =>
          simp only [List.cons_append] at h
          injection h with h1 h2
          rcases ih q a' b (fun hm => hx (List.mem_cons_of_mem y hm)) h2 with ⟨a'', ha, hq⟩
          exact ⟨a'', by rw [List.cons_append, ha, h1], hq⟩

theorem escList_one (d : Char) : escListChars [d] = [d] := by
  rw [escListChars.eq_3]
  split <;> simp [escListChars.eq_1]

theorem escList_two (c d : Char) : escListChars [c, d] = c :: escListChars [d] := by
  rw [escListChars.eq_4]
  split <;> rfl

theorem escList_ggg (r : List Char) :
    escListChars ('`' :: '`' :: '`' :: r) =
      '`' :: ' ' :: '`' :: ' ' :: '`' :: escListChars r := by
  rw [escListChars.eq_2, if_pos rfl]

theorem escList_cons_ne3 (c d e : Char) (r : List Char) (h : ¬(d = '`' ∧ e = '`')) :
    escListChars (c :: d :: e :: r) = c :: escListChars (d :: e :: r) := by
  rw [escListChars.eq_5 c d e r (fun hd he => h ⟨hd, he⟩)]
  split <;> rfl

theorem escList_cons_head (c : Char) (r : List Char) :
    ∃ t, escListChars (c :: r) = c :: t := by
  cases r with
  | nil => exact ⟨[], by rw [escList_one]⟩
  | cons d r2 =>
      cases r2 with
      | nil => exact ⟨escListChars [d], by rw [escList_two]⟩
      | cons e r3 =>
          by_cases hde : d = '`' ∧ e = '`'
          · obtain ⟨hd, he⟩ := hde
            subst hd
            subst he
            by_cases hc : c = '`'
            · subst hc
              exact ⟨' ' :: '`' :: ' ' :: '`' :: escListChars r3, escList_ggg r3⟩
            · exact ⟨escListChars ('`' :: '`' :: r3), by rw [escListChars.eq_2, if_neg hc]⟩
          · exact ⟨escListChars (d :: e :: r3), escList_cons_ne3 c d e r3 hde⟩

theorem escList_cons_ne (c : Char) (rest : List Char) (hc : ¬c = '`') :
    escListChars (c :: rest) = c :: escListChars rest := by
  cases rest with
  | nil =>
      rw [escListChars.eq_3, if_neg hc]
  | cons d r2 =>
      cases r2 with
      | nil => exact escList_two c d
      | cons e r3 =>
          by_cases hde : d = '`' ∧ e = '`'
          · obtain ⟨hd, he⟩ := hde
            subst hd
            subst he
            rw [escListChars.eq_2, if_neg hc]
          · exact escList_cons_ne3 c d e r3 hde

theorem escList_backtick_notwo (e : Char) (r : List Char) (he : ¬e = '`') :
    escListChars ('`' :: e :: r) = '`' :: escListChars (e :: r) := by
  cases r with
  | nil => exact escList_two '`' e
  | cons f r' => exact escList_cons_ne3 '`' e f r' (fun hp => he hp.1)

/-- The escaped text neither starts with a triple backtick nor has one right
after any newline: the scan replaces every fence-opening run before it can
sit at a line start. -/
theorem escList_fence_free (s : List Char) :
    ¬fenceChars <+: escListChars s ∧
    ∀ a b, escListChars s = a ++ '\n' :: b → ¬fenceChars <+: b := by
  induction s using escListChars.induct with
  | case1 =>
      rw [escListChars.eq_1]
      constructor
      · rintro ⟨t, ht⟩
        simp [fenceChars] at ht
      · intro a b heq
        exact absurd heq.symm (by simp)
  | case2 r ih =>
      rw [escList_ggg]
      constructor
      · rintro ⟨t, ht⟩
        rw [show fenceChars ++ t = '`' :: '`' :: '`' :: t from rfl] at ht
        injection ht with _ h2
        injection h2 with h2 _
        exact absurd h2 (by decide)
      · intro a b heq
        have hsplit := append_split_notmem '\n' ['`', ' ', '`', ' ', '`']
          (escListChars r) a b (by decide) (by simpa using heq)
        rcases hsplit with ⟨a', _, hq⟩
        exact ih.2 a' b hq
  | case3 =>
      rw [escList_one]
      constructor
      · rintro ⟨t, ht⟩
        rw [show fenceChars ++ t = '`' :: '`' :: '`' :: t from rfl] at ht
        injection ht with _ h2
        simp at h2
      · intro a b heq
        have : '\n' ∈ (['`'] : List Char) := by
          rw [heq]
          exact List.mem_append_right a (List.mem_cons_self _ _)
        simp at this
  | case4 d ih =>
      rw [escList_two, escList_one]
      constructor
      · rintro ⟨t, ht⟩
        rw [show fenceChars ++ t = '`' :: '`' :: '`' :: t from rfl] at ht
        injection ht with _ h2
        injection h2 with h2 h3
        simp at h3
      · intro a b heq
        rcases a with _ | ⟨x, _ | ⟨y, a''⟩⟩
        · injection heq with h1 _
          exact absurd h1 (by decide)
        · injection heq with _ h2
          injection h2 with _ h3
          rw [← h3]
          rintro ⟨t, ht⟩
          simp [fenceChars] at ht
        · injection heq with _ h2
          injection h2 with _ h3
          exact absurd h3.symm (by simp)
  | case5 d e r hde ih =>
      have hE : escListChars ('`' :: d :: e :: r) =
          '`' :: escListChars (d :: e :: r) :=
        escList_cons_ne3 '`' d e r (fun hp => hde hp.1 hp.2)
      rw [hE]
      constructor
      · rintro ⟨t, ht⟩
        rw [show fenceChars ++ t = '`' :: '`' :: '`' :: t from rfl] at ht
        injection ht with _ h2
        by_cases hd : d = '`'
        · subst hd
          have he : ¬e = '`' := fun hc => hde rfl hc
          rw [escList_backtick_notwo e r he] at h2
          injection h2 with _ h3
          rcases escList_cons_head e r with ⟨t₃, ht₃⟩
          rw [ht₃] at h3
          injection h3 with h3 _
          exact he h3.symm
        · rcases escList_cons_head d (e :: r) with ⟨t₂, ht₂⟩
          rw [ht₂] at h2
          injection h2 with h2 _
          exact hd h2.symm
      · intro a b heq
        rcases a with _ | ⟨x, a'⟩
        · injection heq with h1 _
          exact absurd h1 (by decide)
        · injection heq with _ h2
          exact ih.2 a' b h2
  | case6 c rest hc ih =>
      rw [escList_cons_ne c rest hc]
      constructor
      · rintro ⟨t, ht⟩
        rw [show fenceChars ++ t = '`' :: '`' :: '`' :: t from rfl] at ht
        injection ht with h1 _
        exact hc h1.symm
      · intro a b heq
        rcases a with _ | ⟨x, a'⟩
        · injection heq with _ h2
          rw [← h2]
          exact ih.1
        · injection heq with _ h2
          exact ih.2 a' b h2

theorem splitNl_cons (c : Char) (rest : List Char) :
    splitNl (c :: rest) =
      if c = '\n' then [] :: splitNl rest
      else
        match splitNl rest with
        | l :: ls => (c :: l) :: ls
        | [] => [[c]] := rfl

theorem splitNl_ne_nil (xs : List Char) : splitNl xs ≠ [] := by
  induction xs with
  | nil => simp [splitNl]
  | cons c rest ih =>
      rw [splitNl_cons]
      by_cases hc : c = '\n'
      · simp [hc]
      · rw [if_neg hc]
        cases hsr : splitNl rest with
        | nil => exact absurd hsr ih
        | cons l ls => simp

theorem splitNl_append (xs ys : List Char) :
    splitNl (xs ++ '\n' :: ys) = splitNl xs ++ splitNl ys := by
  induction xs with
  | nil =>
      rw [List.nil_append, splitNl_cons, if_pos rfl]
      rfl
  | cons c rest ih =>
      rw [List.cons_append, splitNl_cons, splitNl_cons]
      by_cases hc : c = '\n'
      · rw [if_pos hc, if_pos hc, ih]
        rfl
      · rw [if_neg hc, if_neg hc, ih]
        cases hsr : splitNl rest with
        | nil => exact absurd hsr (splitNl_ne_nil rest)
        | cons l ls => simp

theorem splitNl_headPref (xs : List Char) :
    ∀ l ls, splitNl xs = l :: ls → l <+: xs := by
  induction xs with
  | nil =>
      intro l ls h
      simp only [splitNl] at h
      injection h with h1 _
      rw [← h1]
  | cons c rest ih =>
      intro l ls h
      rw [splitNl_cons] at h
      by_cases hc : c = '\n'
      · rw [if_pos hc] at h
        injection h with h1 _
        rw [← h1]
        exact List.nil_prefix
      · rw [if_neg hc] at h
        cases hsr : splitNl rest with
        | nil => exact absurd hsr (splitNl_ne_nil rest)
        | cons l0 ls0 =>
            rw [hsr] at h
            injection h with h1 _
            rw [← h1]
            rcases ih l0 ls0 hsr with ⟨t, ht⟩
            exact ⟨t, by rw [List.cons_append, ht]⟩

theorem splitNl_tail_lines (xs : List Char) :
    ∀ l, l ∈ (splitNl xs).tail → ∃ a r, xs = a ++ '\n' :: (l ++ r) := by
  induction xs with
  | nil =>
      intro l h
      simp [splitNl] at h
  | cons c rest ih =>
      intro l h
      rw [splitNl_cons] at h
      by_cases hc : c = '\n'
      · rw [if_pos hc] at h
        simp only [List.tail_cons] at h
        cases hsr : splitNl rest with
        | nil => exact absurd hsr (splitNl_ne_nil rest)
        | cons l0 ls0 =>
            rw [hsr] at h
            rcases List.mem_cons.mp h with h1 | h1
            · subst h1
              rcases splitNl_headPref rest l ls0 hsr with ⟨t, ht⟩
              refine ⟨[], t, ?_⟩
              rw [hc, ← ht]
              rfl
            · have h2 : l ∈ (splitNl rest).tail := by
                rw [hsr]
                simpa using h1
              rcases ih l h2 with ⟨a, r, har⟩
              exact ⟨c :: a, r, by rw [har]; rfl⟩
      · rw [if_neg hc] at h
        cases hsr : splitNl rest with
        | nil => exact absurd hsr (splitNl_ne_nil rest)
        | cons l0 ls0 =>
            rw [hsr] at h
            simp only [List.tail_cons] at h
            have h2 : l ∈ (splitNl rest).tail := by
              rw [hsr]
              simpa using h
            rcases ih l h2 with ⟨a, r, har⟩
            exact ⟨c :: a, r, by rw [har]; rfl⟩

theorem splitNl_no_fence (xs : List Char)
    (h0 : ¬fenceChars <+: xs)
    (h1 : ∀ a b, xs = a ++ '\n' :: b → ¬fenceChars <+: b) :
    ∀ l ∈ splitNl xs, fenceStartB l = false := by
  intro l hl
  cases hb : strHasPrefixB fenceChars l with
  | false => simpa [fenceStartB] using hb
  | true =>
      exfalso
      have hpre := (strHasPrefixB_iff fenceChars l).mp hb
      cases hsx : splitNl xs with
      | nil => exact absurd hsx (splitNl_ne_nil xs)
      | cons l0 ls0 =>
          rw [hsx] at hl
          rcases List.mem_cons.mp hl with h | h
          · subst h
            exact h0 (hpre.trans (splitNl_headPref xs l ls0 hsx))
          · have htl : l ∈ (splitNl xs).tail := by
              rw [hsx]
              simpa using h
            rcases splitNl_tail_lines xs l htl with ⟨a, r, har⟩
            exact h1 a (l ++ r) har (hpre.trans (List.prefix_append l r))

theorem strData_append (s t : String) : (s ++ t).data = s.data ++ t.data := by
  cases s
  cases t
  rfl

theorem wf_fence_append (xs : List Char)
    (h0 : ¬fenceChars <+: xs)
    (h1 : ∀ a b, xs = a ++ '\n' :: b → ¬fenceChars <+: b) :
    (splitNl (fenceChars ++ '\n' :: (xs ++ '\n' :: fenceChars))).filter fenceStartB
        = [fenceChars, fenceChars] ∧
    (splitNl (fenceChars ++ '\n' :: (xs ++ '\n' :: fenceChars))).getLast?
        = some fenceChars := by
  have hsp : splitNl (fenceChars ++ '\n' :: (xs ++ '\n' :: fenceChars))
      = [fenceChars] ++ (splitNl xs ++ [fenceChars]) := by
    rw [splitNl_append, splitNl_append]
    rfl
  have hnil : List.filter fenceStartB (splitNl xs) = [] := by
    rw [List.filter_eq_nil_iff]
    intro l hl
    have hfl := splitNl_no_fence xs h0 h1 l hl
    simp [hfl]
  constructor
  · rw [hsp, List.filter_append, List.filter_append, hnil]
    rfl
  · rw [hsp, ← List.append_assoc]
    exact List.getLast?_concat _

theorem wf_prefix_line (p ys : List Char)
    (hp : fenceStartB p = false) (hsp : splitNl p = [p])
    (hf : (splitNl ys).filter fenceStartB = [fenceChars, fenceChars])
    (hl : (splitNl ys).getLast? = some fenceChars) :
    (splitNl (p ++ '\n' :: ys)).filter fenceStartB = [fenceChars, fenceChars] ∧
    (splitNl (p ++ '\n' :: ys)).getLast? = some fenceChars := by
  rw [splitNl_append, hsp]
  constructor
  · rw [List.filter_append, hf]
    simp [List.filter_cons, hp]
  · rw [List.getLast?_append_of_ne_nil [p] (splitNl_ne_nil ys)]
    exact hl

theorem toolOutputContent_data (o : String) :
    (toolOutputContent o).data
      = fenceChars ++ '\n' ::
          (escListChars (truncateToolOutput o).data ++ '\n' :: fenceChars) := by
  unfold toolOutputContent
  rw [strData_append, strData_append]
  have h1 : fenceOpen.data = fenceChars ++ ['\n'] := rfl
  have h2 : fenceClose.data = '\n' :: fenceChars := rfl
  have h3 : (escapeCodeBlockContent (truncateToolOutput o)).data
      = escListChars (truncateToolOutput o).data := rfl
  rw [h1, h2, h3]
  simp

theorem reasoningBlockContent_data (t : String) :
    (reasoningBlockContent t).data
      = fenceChars ++ '\n' :: (escListChars t.data ++ '\n' :: fenceChars) := by
  unfold reasoningBlockContent
  rw [strData_append, strData_append]
  have h1 : fenceOpen.data = fenceChars ++ ['\n'] := rfl
  have h2 : fenceClose.data = '\n' :: fenceChars := rfl
  have h3 : (escapeCodeBlockContent t).data = escListChars t.data := rfl
  rw [h1, h2, h3]
  simp

theorem toolErrorContent_data (e : String) :
    (toolErrorContent e).data
      = (['*', '*', '错', '误', '：', '*', '*'] : List Char) ++ '\n' ::
          (fenceChars ++ '\n' :: (escListChars e.data ++ '\n' :: fenceChars)) := by
  unfold toolErrorContent
  rw [strData_append, strData_append, strData_append]
  have h0 : errorLabel.data = ['*', '*', '错', '误', '：', '*', '*'] ++ ['\n'] := rfl
  have h1 : fenceOpen.data = fenceChars ++ ['\n'] := rfl
  have h2 : fenceClose.data = '\n' :: fenceChars := rfl
  have h3 : (escapeCodeBlockContent e).data = escListChars e.data := rfl
  rw [h0, h1, h2, h3]
  simp

/-- C9: Every fenced code block emitted by buildStreamingCardsV2 — a tool-call
error block, a tool-call output block, or a reasoning panel body — is
well-formed for every input string: triple-backtick sequences in the embedded
text are broken up by escapeCodeBlockContent before insertion, so exactly two
lines of the rendered markdown start with a fence (the opening line and the
final, closing line) and the embedded text never terminates the block early. -/
theorem C9_fenced_blocks_wellformed (e o t : String) :
    wellFormedFenceBlock (toolErrorContent e) ∧
    wellFormedFenceBlock (toolOutputContent o) ∧
    wellFormedFenceBlock (reasoningBlockContent t) := by
  obtain ⟨he0, he1⟩ := escList_fence_free e.data
  obtain ⟨ho0, ho1⟩ := escList_fence_free (truncateToolOutput o).data
  obtain ⟨ht0, ht1⟩ := escList_fence_free t.data
  refine ⟨?_, ?_, ?_⟩
  · unfold wellFormedFenceBlock
    rw [toolErrorContent_data e]
    obtain ⟨hf, hl⟩ := wf_fence_append (escListChars e.data) he0 he1
    exact wf_prefix_line _ _ (by decide) (by decide) hf hl
  · unfold wellFormedFenceBlock
    rw [toolOutputContent_data o]
    exact wf_fence_append _ ho0 ho1
  · unfold wellFormedFenceBlock
    rw [reasoningBlockContent_data t]
    exact wf_fence_append _ ht0 ht1
